import Mathlib

/-!
# SprintPulse store (`AppStore` of `debug.js`): state tree, metrics and tactic moves

A shallow embedding of the state-owning class `AppStore`:

* the state tree built by the constructor (`AppState`, `Goal`, `Tactic`, ...);
* the metric `calculateWES`, including the binary64 arithmetic of
  `Math.round((completed / total) * 100)`;
* the mutations `toggleTactic`, `_createTactic` and `handleTacticMove`;
* the time-block grid (`toggleTimeBlock`, `calculateStrategicHours`), the week archive
  (`completeWeek`, `updateMetric`), the remaining goal and tactic mutations, and the
  persistence methods `save` and `load` on a `Store` that pairs the state with the storage;
* the creation of goals (`addGoal`, the onboarding goal), the due-date methods, and
  `completeWeekStored`, the week completion together with the storage it writes.

JavaScript objects held in arrays are modelled by value; an object reference into
`state.goals` is modelled by the position of the object in the list. `save()` and
`render()` do not change the state tree for the states modelled here (the only write in
the rendering code, `if (!this.state.openWeeks) this.state.openWeeks = {}`, is dead
because the constructor installs `openWeeks: {}` and `load()` only overrides it with a
saved object), so the mutations are functions on the state tree alone; what `save()`
writes is modelled by `save` on a `Store`.
-/

namespace SprintPulse

/-! ## Data model -/

/-- A tactic object `{ id, title, completed, week }`; `week` is `none` when the property is
absent (as in the default goal of the constructor and in `addTactic(goalId)`). -/
structure Tactic where
  id : String
  title : String
  completed : Bool
  week : Option Nat
deriving DecidableEq, Repr

/-- A goal object `{ id, title, tactics }`. -/
structure Goal where
  id : String
  title : String
  tactics : List Tactic
deriving DecidableEq, Repr

/-- An entry of `metrics.wesHistory`, as built by `completeWeek`. -/
structure WeekSnapshot where
  week : Nat
  score : Nat
  strategicHours : Nat
  lag : Option String
  lead : Option String
deriving DecidableEq, Repr

/-- An entry of `healthLogs`. -/
structure HealthLog where
  id : String
  date : String
  week : Nat
  note : String
deriving DecidableEq, Repr

/-- An entry of `dueDates`; the source's property `type` is called `kind` here. -/
structure DueDate where
  id : String
  title : String
  kind : String
  duration : String
deriving DecidableEq, Repr

/-- The object `state.metrics`: the history array and the ad-hoc string properties
`week<N>_lag` / `week<N>_lead`; the property `lagLeadHandlers`, which no method reads or
writes, is left out. -/
structure Metrics where
  wesHistory : List WeekSnapshot
  fields : List (String × String)
deriving DecidableEq, Repr

/-- The state tree `this.state`. `dueDates` and `modelWeek` are absent from the default
state, hence optional; a string-keyed object is an association list with one entry per
key, a new key going to the end. -/
structure AppState where
  version : Nat
  onboardingComplete : Bool
  currentWeek : Nat
  vision : String
  goals : List Goal
  metrics : Metrics
  emotionalHistory : List (Nat × String)
  healthLogs : List HealthLog
  openWeeks : List (String × List (String × Bool))
  dueDates : Option (List DueDate)
  modelWeek : Option (List (String × String))
deriving DecidableEq, Repr

/-- The default state installed by the constructor. -/
def defaultState : AppState where
  version := 1
  onboardingComplete := false
  currentWeek := 1
  vision := "Define your 12-week vision here..."
  goals := [
    { id := "g1", title := "Launch MVP Website",
      tactics := [
        { id := "t1", title := "Draft PRFAQ", completed := false, week := none },
        { id := "t2", title := "Set up Repo", completed := true, week := none } ] } ]
  metrics := { wesHistory := [], fields := [] }
  emotionalHistory := []
  healthLogs := []
  openWeeks := []
  dueDates := none
  modelWeek := none

/-- The expression `t.week || 1`: an absent week and the falsy week `0` both give `1`. -/
def resolveWeek (t : Tactic) : Nat :=
  match t.week with
  | none => 1
  | some 0 => 1
  | some w => w

/-- The method `Array.prototype.findIndex`: position of the first element satisfying `p`
(`none` for the source's `-1`). -/
def findIndex {α : Type} (p : α → Bool) : List α → Option Nat
  | [] => none
  | x :: xs => if p x then some 0 else (findIndex p xs).map (· + 1)

/-! ## Binary64 arithmetic used by `calculateWES`

Non-negative finite doubles are held exactly as fractions `num / den`. Division and
multiplication round the exact result to the nearest double (53-bit significand, ties to
even). The exponent range is not bounded: the model agrees with binary64 whenever the
exact result lies in the normal range, which holds for every quotient of two counts
below `2 ^ 1022`. -/

/-- A non-negative finite double, as the exact fraction `num / den`. -/
structure Dbl where
  num : Nat
  den : Nat
deriving DecidableEq, Repr

/-- Floor of the binary logarithm by repeated halving; `fuel` bounds the number of
halvings and `log2Floor n n` is the logarithm of `n`. -/
def log2Floor : Nat → Nat → Nat
  | 0, _ => 0
  | fuel + 1, n => if n < 2 then 0 else log2Floor fuel (n / 2) + 1

/-- Nearest integer to `n / d`, ties to the even neighbour. -/
def roundHalfEven (n d : Nat) : Nat :=
  let q := n / d
  let r := n % d
  if 2 * r < d then q
  else if d < 2 * r then q + 1
  else if q % 2 = 0 then q else q + 1

/-- The double nearest to the exact fraction `n / d` (`d` non-zero): the fraction is
scaled by a power of two into `[2 ^ 52, 2 ^ 53)`, rounded to an integer significand,
and scaled back. -/
def toDouble (n d : Nat) : Dbl :=
  if n = 0 then ⟨0, 1⟩
  else
    let ln := log2Floor n n
    let ld := log2Floor d d
    let up := 53 + ld
    let k := if 2 ^ 53 * (d * 2 ^ ln) ≤ n * 2 ^ up then ln + 1 else ln
    ⟨roundHalfEven (n * 2 ^ up) (d * 2 ^ k) * 2 ^ k, 2 ^ up⟩

/-- The double `a / b` for two integer-valued doubles. -/
def fdiv (a b : Nat) : Dbl := toDouble a b

/-- The double `x * k` for a double `x` and an integer-valued double `k`. -/
def fmul (x : Dbl) (k : Nat) : Dbl := toDouble (x.num * k) x.den

/-- The function `Math.round` on a non-negative double: the nearest integer, a tie going up. -/
def mathRound (x : Dbl) : Nat := (2 * x.num + x.den) / (2 * x.den)

/-! ## Metrics -/

/-- The two counters of `calculateWES` after visiting one tactic. -/
def wesVisit (currentWeek : Nat) (acc : Nat × Nat) (t : Tactic) : Nat × Nat :=
  if resolveWeek t == currentWeek then
    (acc.1 + 1, if t.completed then acc.2 + 1 else acc.2)
  else acc

/-- The counters `(total, completed)` of `calculateWES` after the two nested `forEach`
loops. -/
def wesCounts (s : AppState) : Nat × Nat :=
  s.goals.foldl (fun acc g => g.tactics.foldl (wesVisit s.currentWeek) acc) (0, 0)

/-- The method `calculateWES()`:
`total === 0 ? 0 : Math.round((completed / total) * 100)`. -/
def calculateWES (s : AppState) : Nat :=
  let c := wesCounts s
  if c.1 = 0 then 0 else mathRound (fmul (fdiv c.2 c.1) 100)

/-! ## Mutations -/

/-- The effect of `xs.find(p)` followed by an in-place mutation `f` of the object found:
the first element satisfying `p` is replaced by its mutated value; nothing changes when
no element satisfies `p`. -/
def modifyFirst {α : Type} (p : α → Bool) (f : α → α) : List α → List α
  | [] => []
  | x :: xs => if p x then f x :: xs else x :: modifyFirst p f xs

/-- The method `toggleTactic(goalId, tacticId)`: flips `completed` of the tactic found, if
any. -/
def toggleTactic (s : AppState) (goalId tacticId : String) : AppState :=
  let flip (g : Goal) : Goal :=
    { g with tactics :=
        (modifyFirst (fun t => t.id == tacticId)
          (fun t => { t with completed := !t.completed }) g.tactics) }
  { s with goals := (modifyFirst (fun g => g.id == goalId) flip s.goals) }

/-- The object literal `openWeeks[goalId][wKey] = true`, creating the inner object when
it is missing. The list holds the own properties. For the goal id `__proto__` without an
own property of that name `openWeeks[goalId]` is `Object.prototype`, so no inner object is
created and the write lands outside the state tree, which stays as it is. The key `wKey`
is the decimal week number. -/
def openWeek (ow : List (String × List (String × Bool))) (goalId wKey : String) :
    List (String × List (String × Bool)) :=
  let setKey (inner : List (String × Bool)) : List (String × Bool) :=
    if inner.any (fun kv => kv.1 == wKey) then
      inner.map (fun kv => if kv.1 == wKey then (kv.1, true) else kv)
    else inner ++ [(wKey, true)]
  if ow.any (fun e => e.1 == goalId) then
    ow.map (fun e => if e.1 == goalId then (e.1, setKey e.2) else e)
  else if goalId = "__proto__" then ow
  else ow ++ [(goalId, setKey [])]

/-- The tactic pushed by the recurring loop of `_createTactic` in the iteration for
week `w`, `now` being the value of `Date.now()` in that iteration. -/
def recurringTactic (title : String) (now w : Nat) : Tactic :=
  { id := "t" ++ toString now ++ "_w" ++ toString w
    title := title
    completed := false
    week := some w }

/-- The method `_createTactic(goal, week, isRecurring, title)`. The goal object is given by
its position `gi` in `state.goals`; `clock w` is the value `Date.now()` returns in the loop
iteration for week `w`, and `clock 0` the value it returns in the non-recurring branch. -/
def _createTactic (s : AppState) (gi : Nat) (week : Option Nat) (isRecurring : Bool)
    (title : String) (clock : Nat → Nat) : AppState :=
  if title = "" then s
  else
    match s.goals[gi]? with
    | none => s
    | some goal =>
      let tactics :=
        if isRecurring then
          (List.range' 1 12).foldl
            (fun ts w => ts ++ [recurringTactic title (clock w) w]) goal.tactics
        else
          goal.tactics ++
            [{ id := "t" ++ toString (clock 0), title := title, completed := false,
               week := week }]
      let goals := s.goals.set gi { goal with tactics := tactics }
      match week, isRecurring with
      | some (w + 1), false =>
        { s with goals := goals, openWeeks := openWeek s.openWeeks goal.id (toString (w + 1)) }
      | _, _ => { s with goals := goals }

/-- The drag payload `{ goalId, week, tacticId }` written by `dragStart`. -/
structure MoveSource where
  goalId : String
  week : Nat
  tacticId : String
deriving DecidableEq, Repr

/-- The drop target `{ goalId, week, tacticId }`; `tacticId` is `none` for the `null`
passed by `dropWeek`. -/
structure MoveTarget where
  goalId : String
  week : Nat
  tacticId : Option String
deriving DecidableEq, Repr

/-- How a call ends: a normal return, or an uncaught `TypeError`; both carry the state
tree as the call leaves it. -/
inductive Outcome where
  | returned (s : AppState)
  | threw (s : AppState)
deriving DecidableEq, Repr

/-- The branch `if (target.tacticId)` of `handleTacticMove`: `moved` goes in front of the
first tactic whose id is `tid`, or to the end when there is none. -/
def insertBeforeTactic (tactics : List Tactic) (tid : String) (moved : Tactic) :
    List Tactic :=
  match findIndex (fun t => t.id == tid) tactics with
  | some newIndex => tactics.take newIndex ++ moved :: tactics.drop newIndex
  | none => tactics ++ [moved]

/-- The `else` branch of `handleTacticMove`. Every object of the array is paired with its
position, which stands for its identity: `indexOf(lastTactic)` is the position of the
last object that passes the week filter. -/
def insertAfterWeek (tactics : List Tactic) (week : Nat) (moved : Tactic) : List Tactic :=
  let weekTactics := tactics.enum.filter (fun it => resolveWeek it.2 == week)
  match weekTactics.getLast? with
  | some (lastIndex, _) =>
    tactics.take (lastIndex + 1) ++ moved :: tactics.drop (lastIndex + 1)
  | none => tactics ++ [moved]

/-- The insertion step of `handleTacticMove` on the target goal's array. A `null` or empty
`target.tacticId` is falsy. -/
def insertMoved (tactics : List Tactic) (target : MoveTarget) (moved : Tactic) :
    List Tactic :=
  match target.tacticId with
  | some tid =>
    if tid = "" then insertAfterWeek tactics target.week moved
    else insertBeforeTactic tactics tid moved
  | none => insertAfterWeek tactics target.week moved

/-- The source goal object after `sGoal.tactics.splice(sTacticIndex, 1)`, the index being
that of the first tactic with the given id. -/
def spliceOut (tacticId : String) (g : Goal) : Goal :=
  { g with tactics := g.tactics.eraseP (fun t => t.id == tacticId) }

/-- The target goal object after the insertion step. -/
def spliceIn (target : MoveTarget) (moved : Tactic) (g : Goal) : Goal :=
  { g with tactics := insertMoved g.tactics target moved }

/-- The state right after `sGoal.tactics.splice(sTacticIndex, 1)`: the tactic found is
taken out of the source goal's array. -/
def afterRemoval (s : AppState) (src : MoveSource) : AppState :=
  { s with
    goals := (modifyFirst (fun g => g.id == src.goalId) (spliceOut src.tacticId) s.goals) }

/-- The method `handleTacticMove(src, target)`. The source goal and the target goal are the
first goals with the respective ids, so they are the same object exactly when the lookup finds
the same list element. When the target goal is missing, `tGoal.tactics` raises a
`TypeError` after the tactic has already been spliced out of the source array. -/
def handleTacticMove (s : AppState) (src : MoveSource) (target : MoveTarget) : Outcome :=
  match s.goals.find? (fun g => g.id == src.goalId) with
  | none => .returned s
  | some sGoal =>
    match sGoal.tactics.find? (fun t => t.id == src.tacticId) with
    | none => .returned s
    | some found =>
      let tacticToMove : Tactic := { found with week := some target.week }
      let s1 := afterRemoval s src
      match s1.goals.find? (fun g => g.id == target.goalId) with
      | none => .threw s1
      | some _ =>
        .returned { s1 with
          goals :=
            (modifyFirst (fun g => g.id == target.goalId) (spliceIn target tacticToMove)
              s1.goals) }

/-! ## Observations used in the statements -/

/-- The tactic array of the goal that `goals.find(g => g.id === goalId)` returns (empty
when there is no such goal). -/
def tacticsOf (s : AppState) (goalId : String) : List Tactic :=
  match s.goals.find? (fun g => g.id == goalId) with
  | some g => g.tactics
  | none => []

/-- Number of tactics across all goals. -/
def totalTactics (s : AppState) : Nat :=
  (s.goals.map (fun g => g.tactics.length)).sum

/-- All tactics of all goals whose resolved week is the current week. -/
def currentWeekTactics (s : AppState) : List Tactic :=
  (s.goals.flatMap (fun g => g.tactics)).filter (fun t => resolveWeek t == s.currentWeek)

/-- The score the specification states: `100 * completed / total` rounded to the nearest
integer (a tie going up, as `Math.round` does), in exact arithmetic, and `0` for an empty
total. -/
def specWES (s : AppState) : Nat :=
  let total := (currentWeekTactics s).length
  let completed := ((currentWeekTactics s).filter (fun t => t.completed)).length
  if total = 0 then 0 else (200 * completed + total) / (2 * total)

/-- The last two characters of a recurring id, read backwards; they depend on the week
only. -/
def weekTail (w : Nat) : List Char := (((toString w).data.reverse) ++ ['w', '_']).take 2

/-! ## Concrete states -/

/-- One goal holding forty week-1 tactics, the first twenty-three of them completed. -/
def tieState : AppState :=
  { defaultState with
    goals := [
      { id := "g1", title := "Launch MVP Website",
        tactics := (List.range 40).map (fun i =>
          { id := "t" ++ toString (i + 1), title := "Draft PRFAQ",
            completed := decide (i < 23), week := none }) } ] }

/-- The default state with its second tactic not completed: two tactics of week 1, none
of them completed. -/
def idleState : AppState :=
  { defaultState with
    goals := [
      { id := "g1", title := "Launch MVP Website",
        tactics := [
          { id := "t1", title := "Draft PRFAQ", completed := false, week := none },
          { id := "t2", title := "Set up Repo", completed := false, week := none } ] } ] }

/-- A goal with three tactics, of the weeks 3, 3 and 5. -/
def boardGoalA : Goal :=
  { id := "gA", title := "Launch MVP Website",
    tactics := [
      { id := "a1", title := "Draft PRFAQ", completed := false, week := some 3 },
      { id := "a2", title := "Set up Repo", completed := true, week := some 3 },
      { id := "a3", title := "Ship landing page", completed := false, week := some 5 } ] }

/-- A goal with four tactics, of the weeks 5, 2, 5 and 1 (the last one by default). -/
def boardGoalB : Goal :=
  { id := "gB", title := "Write 5 chapters",
    tactics := [
      { id := "b1", title := "Outline", completed := false, week := some 5 },
      { id := "b2", title := "Chapter one", completed := false, week := some 2 },
      { id := "b3", title := "Chapter two", completed := true, week := some 5 },
      { id := "b4", title := "Find editor", completed := false, week := none } ] }

/-- A state with the two goals `boardGoalA` and `boardGoalB`. -/
def boardState : AppState :=
  { defaultState with goals := [boardGoalA, boardGoalB] }

/-! ## String-keyed objects -/

/-- Reading the own property `obj[k]` of a string-keyed object (`none` when the object has
no own property of that name). -/
def getKey {β : Type} (k : String) : List (String × β) → Option β
  | [] => none
  | (k1, v) :: rest => if k1 == k then some v else getKey k rest

/-- The assignment `obj[k] = v` that ends in an own property: an existing property keeps
its place, a new one goes to the end. -/
def setKey {β : Type} (k : String) (v : β) : List (String × β) → List (String × β)
  | [] => [(k, v)]
  | (k1, v1) :: rest => if k1 == k then (k1, v) :: rest else (k1, v1) :: setKey k v rest

/-! ## Time blocks -/

/-- The array `types` of `toggleTimeBlock`. -/
def blockTypes : List String := ["empty", "plan", "action", "breakout"]

/-- The tag `toggleTimeBlock` writes, from the value read at `modelWeek[id]`: a missing or
empty value reads as `empty` (`|| 'empty'`), `indexOf` returning `-1` is replaced by
index 0, and the result is `types[(idx + 1) % types.length]`. -/
def nextBlockType (stored : Option String) : String :=
  let current := match stored with
    | none => "empty"
    | some v => if v = "" then "empty" else v
  let idx := match findIndex (fun t => t == current) blockTypes with
    | some i => i
    | none => 0
  blockTypes.getD ((idx + 1) % blockTypes.length) "empty"

/-- The assignment `modelWeek[id] = next` of a string on a plain object. It is `setKey`,
except for the key `__proto__` on an object without an own property of that name: the
assignment then reaches the setter inherited from `Object.prototype`, which ignores a
string, and the object stays as it is. -/
def assignTag (id next : String) (modelWeek : List (String × String)) :
    List (String × String) :=
  match getKey id modelWeek with
  | none => if id = "__proto__" then modelWeek else setKey id next modelWeek
  | some _ => setKey id next modelWeek

/-- The method `toggleTimeBlock(id)`; a missing `modelWeek` is created first. The list holds
the own properties of the object. Without an own property `modelWeek[id]` is `undefined`
or, for a name inherited from `Object.prototype` (`__proto__`, `constructor`, ...), an
object or a function; either way it is not one of `types`, the index becomes 0 and the
tag to write is `plan`, which is what `nextBlockType none` gives. -/
def toggleTimeBlock (s : AppState) (id : String) : AppState :=
  let modelWeek := match s.modelWeek with
    | none => []
    | some mw => mw
  { s with modelWeek := some (assignTag id (nextBlockType (getKey id modelWeek)) modelWeek) }

/-- The slot ids `d<day>-h<hour>` that `renderHourlyPlanner` puts into the grid and hands
to `toggleTimeBlock`: 16 hours by 7 days. -/
def plannerSlotIds : List String :=
  (List.range 16).flatMap
    (fun h => (List.range 7).map (fun d => "d" ++ toString d ++ "-h" ++ toString h))

/-- The method `calculateStrategicHours()`:
`Object.values(modelWeek).filter(v => v === 'action').length`, and 0 without `modelWeek`. -/
def calculateStrategicHours (s : AppState) : Nat :=
  match s.modelWeek with
  | none => 0
  | some modelWeek => ((modelWeek.map (fun e => e.2)).filter (fun v => v == "action")).length

/-! ## Completing a week -/

/-- The template literal of the metric property name, `week<N>_<type>`. -/
def metricKey (week : Nat) (type : String) : String :=
  "week" ++ toString week ++ "_" ++ type

/-- The method `updateMetric(type, value)`. The property name starts with `week`, so the
assignment always ends in an own property of `metrics`. -/
def updateMetric (s : AppState) (type value : String) : AppState :=
  { s with metrics :=
      { s.metrics with fields := setKey (metricKey s.currentWeek type) value s.metrics.fields } }

/-- The object `entry` built by the confirmation callback of `completeWeek`. -/
def weekEntry (s : AppState) : WeekSnapshot :=
  { week := s.currentWeek
    score := calculateWES s
    strategicHours := calculateStrategicHours s
    lag := getKey (metricKey s.currentWeek "lag") s.metrics.fields
    lead := getKey (metricKey s.currentWeek "lead") s.metrics.fields }

/-- The archive step of `completeWeek`: the entry replaces the first history entry of the
same week, or is pushed when `findIndex` finds none. -/
def archiveEntry (entry : WeekSnapshot) (history : List WeekSnapshot) : List WeekSnapshot :=
  match findIndex (fun h => h.week == entry.week) history with
  | some existingEntryIndex => history.set existingEntryIndex entry
  | none => history ++ [entry]

/-- The confirmation callback of `completeWeek()`: archive the statistics of the current
week, then advance `currentWeek` (to 13 from 12 on). Without a confirmation
`completeWeek()` only opens the dialog and the state stays as it is. -/
def completeWeek (s : AppState) : AppState :=
  { s with
    metrics := { s.metrics with wesHistory := archiveEntry (weekEntry s) s.metrics.wesHistory }
    currentWeek := if s.currentWeek < 12 then s.currentWeek + 1 else 13 }

/-! ## Persistence -/

/-- The object `JSON.parse` returns for a saved item: every top-level key of the state is
present (`some`) or absent (`none`). Values are typed as in `AppState`; a property whose
value is `undefined` is not written by `JSON.stringify` and reads back as absent, which is
how `AppState` holds it already. -/
structure Blob where
  version : Option Nat
  onboardingComplete : Option Bool
  currentWeek : Option Nat
  vision : Option String
  goals : Option (List Goal)
  metrics : Option Metrics
  emotionalHistory : Option (List (Nat × String))
  healthLogs : Option (List HealthLog)
  openWeeks : Option (List (String × List (String × Bool)))
  dueDates : Option (List DueDate)
  modelWeek : Option (List (String × String))
deriving DecidableEq, Repr

/-- The blob `JSON.parse(JSON.stringify(state))`: all keys of the state tree, `dueDates`
and `modelWeek` only when the state has them. -/
def serialize (s : AppState) : Blob where
  version := some s.version
  onboardingComplete := some s.onboardingComplete
  currentWeek := some s.currentWeek
  vision := some s.vision
  goals := some s.goals
  metrics := some s.metrics
  emotionalHistory := some s.emotionalHistory
  healthLogs := some s.healthLogs
  openWeeks := some s.openWeeks
  dueDates := s.dueDates
  modelWeek := s.modelWeek

/-- The spread `{ ...this.state, ...parsed }`: a key of the blob overrides the key of the
state, every other key of the state is kept. -/
def mergeBlob (state : AppState) (parsed : Blob) : AppState where
  version := parsed.version.getD state.version
  onboardingComplete := parsed.onboardingComplete.getD state.onboardingComplete
  currentWeek := parsed.currentWeek.getD state.currentWeek
  vision := parsed.vision.getD state.vision
  goals := parsed.goals.getD state.goals
  metrics := parsed.metrics.getD state.metrics
  emotionalHistory := parsed.emotionalHistory.getD state.emotionalHistory
  healthLogs := parsed.healthLogs.getD state.healthLogs
  openWeeks := parsed.openWeeks.getD state.openWeeks
  dueDates := match parsed.dueDates with
    | some d => some d
    | none => state.dueDates
  modelWeek := match parsed.modelWeek with
    | some m => some m
    | none => state.modelWeek

/-- The item stored under the key `sprintpulse_data`: text that parses to an object, text
that parses to a value which spreads no key of the state (`null`, a number, a boolean, a
string, an array), or text on which `JSON.parse` throws (the empty text, which `load()`
skips, behaves the same). -/
inductive StoredItem where
  | json (parsed : Blob)
  | nonObject
  | malformed
deriving DecidableEq, Repr

/-- The store together with the storage it writes to. -/
structure Store where
  state : AppState
  storage : Option StoredItem
deriving DecidableEq, Repr

/-- The method `save()`; `writeOk` is false when `localStorage.setItem` throws, which is
caught and leaves the storage as it was. -/
def save (st : Store) (writeOk : Bool) : Store :=
  if writeOk then { st with storage := some (.json (serialize st.state)) } else st

/-- The method `load()`: a missing item, a value that is not an object and a parse error
all leave the state tree alone. -/
def load (st : Store) : Store :=
  match st.storage with
  | some (.json parsed) => { st with state := mergeBlob st.state parsed }
  | some .nonObject => st
  | some .malformed => st
  | none => st

/-! ## Goals and tactics: the remaining mutations -/

/-- The method `updateGoalTitle(id, newTitle)`. -/
def updateGoalTitle (s : AppState) (id newTitle : String) : AppState :=
  { s with
    goals := (modifyFirst (fun g => g.id == id) (fun g => { g with title := newTitle }) s.goals) }

/-- The method `updateTacticTitle(goalId, tacticId, title)`. -/
def updateTacticTitle (s : AppState) (goalId tacticId title : String) : AppState :=
  let retitle (g : Goal) : Goal :=
    { g with tactics :=
        (modifyFirst (fun t => t.id == tacticId) (fun t => { t with title := title })
          g.tactics) }
  { s with goals := (modifyFirst (fun g => g.id == goalId) retitle s.goals) }

/-- The method `removeTactic(goalId, tacticId)`: the goal found gets a new array without
the tactics of that id. -/
def removeTactic (s : AppState) (goalId tacticId : String) : AppState :=
  let prune (g : Goal) : Goal :=
    { g with tactics := g.tactics.filter (fun t => t.id != tacticId) }
  { s with goals := (modifyFirst (fun g => g.id == goalId) prune s.goals) }

/-- The confirmation callback of `removeGoal(id)`. -/
def removeGoal (s : AppState) (id : String) : AppState :=
  { s with goals := s.goals.filter (fun g => g.id != id) }

/-- What the dialog opened by `addTactic` does on confirmation: it holds the goal object
(by position), the week and the flag, and waits for the text typed in. -/
structure PendingTactic where
  goal : Nat
  week : Option Nat
  isRecurring : Bool
deriving DecidableEq, Repr

/-- The method `addTactic(goalId, week, isRecurring, optionalTitle)` (the later of the two
methods of that name, which is the one the class keeps). With a title it creates at once;
without one it opens a dialog and returns with the state as it is. -/
def addTactic (s : AppState) (goalId : String) (week : Option Nat) (isRecurring : Bool)
    (optionalTitle : Option String) (clock : Nat → Nat) : AppState × Option PendingTactic :=
  match findIndex (fun g => g.id == goalId) s.goals with
  | none => (s, none)
  | some gi =>
    match optionalTitle with
    | some title =>
      if title = "" then (s, some ⟨gi, week, isRecurring⟩)
      else (_createTactic s gi week isRecurring title clock, none)
    | none => (s, some ⟨gi, week, isRecurring⟩)

/-- The callback `(val) => { if (val) this._createTactic(goal, week, isRecurring, val) }`
run when the dialog is confirmed with the text `val`. -/
def confirmTactic (s : AppState) (p : PendingTactic) (val : String) (clock : Nat → Nat) :
    AppState :=
  if val = "" then s else _createTactic s p.goal p.week p.isRecurring val clock

/-! ## Further observations -/

/-- The tag stored for a slot (`none` when `modelWeek` or the key is missing). -/
def slotTag (s : AppState) (id : String) : Option String :=
  match s.modelWeek with
  | none => none
  | some mw => getKey id mw

/-- The slot ids that `modelWeek` has as keys. -/
def slotIds (s : AppState) : List String :=
  match s.modelWeek with
  | none => []
  | some mw => mw.map (fun e => e.1)

/-- All tactics of all goals, in order. -/
def allTactics (s : AppState) : List Tactic :=
  s.goals.flatMap (fun g => g.tactics)

/-- What the spread does for one key whose state value is always present: the blob's
value when the blob has the key, the previous value otherwise. -/
def keyMerged {α : Type} (blobValue : Option α) (before after : α) : Prop :=
  match blobValue with
  | some v => after = v
  | none => after = before

/-- The same for a key the state may lack (`dueDates`, `modelWeek`). -/
def keyMergedOptional {α : Type} (blobValue : Option α) (before after : Option α) : Prop :=
  match blobValue with
  | some v => after = some v
  | none => after = before

/-! ## Creation of goals, due dates, and the storage written by the mutations -/

/-- The method `addGoal()`; `now` is the value `Date.now()` returns. -/
def addGoal (s : AppState) (now : Nat) : AppState :=
  { s with goals := (s.goals ++ [{ id := "g" ++ toString now, title := "", tactics := [] }]) }

/-- The last step of the onboarding dialog, `g` being the text of the goal input: the
goals are replaced by the single goal `g1` (by no goal for an empty text), and
`completeOnboarding()` sets the flag. -/
def finishOnboarding (s : AppState) (g : String) : AppState :=
  { s with
    goals := (if g = "" then [] else [{ id := "g1", title := g, tactics := [] }])
    onboardingComplete := true }

/-- The ids `_createTactic` gives to the tactics it pushes: one per week for a recurring
tactic, a single one otherwise. -/
def createdTacticIds (isRecurring : Bool) (clock : Nat → Nat) : List String :=
  if isRecurring then
    (List.range' 1 12).map (fun w => "t" ++ toString (clock w) ++ "_w" ++ toString w)
  else ["t" ++ toString (clock 0)]

/-- The invariant of the data model: no two goals and no two tactics with the same id. -/
@[reducible] def idsUnique (s : AppState) : Prop :=
  (s.goals.map (fun g => g.id)).Nodup ∧
    ((s.goals.flatMap (fun g => g.tactics)).map (fun t => t.id)).Nodup

/-- The method `addDueDate()`, which creates a missing `dueDates` array first. -/
def addDueDate (s : AppState) (now : Nat) : AppState :=
  let dueDates := match s.dueDates with
    | none => []
    | some d => d
  { s with
    dueDates :=
      some (dueDates ++ [{ id := "ddl_" ++ toString now, title := "", kind := "", duration := "" }]) }

/-- The assignment `item[field] = value`. The fields the dashboard passes are `title`,
`type` and `duration`; any other name but `id` adds a property the model does not hold. -/
def setDueDateField (d : DueDate) (field value : String) : DueDate :=
  if field = "title" then { d with title := value }
  else if field = "type" then { d with kind := value }
  else if field = "duration" then { d with duration := value }
  else if field = "id" then { d with id := value }
  else d

/-- The method `updateDueDate(id, field, value)`: `this.state.dueDates.find(...)` raises a
`TypeError` when `dueDates` is absent. -/
def updateDueDate (s : AppState) (id field value : String) : Outcome :=
  match s.dueDates with
  | none => .threw s
  | some dueDates =>
    .returned { s with
      dueDates :=
        some (modifyFirst (fun d => d.id == id) (fun d => setDueDateField d field value)
          dueDates) }

/-- The method `removeDueDate(id)`: `this.state.dueDates.filter(...)` raises a `TypeError`
when `dueDates` is absent. -/
def removeDueDate (s : AppState) (id : String) : Outcome :=
  match s.dueDates with
  | none => .threw s
  | some dueDates => .returned { s with dueDates := some (dueDates.filter (fun d => d.id != id)) }

/-- The shape of the mutating methods: the mutation, then `this.save()`. -/
def mutateThenSave (mutate : AppState → AppState) (st : Store) (writeOk : Bool) : Store :=
  save { st with state := mutate st.state } writeOk

/-- The confirmation callback of `completeWeek()` together with the storage, in the order
of the source: the entry is archived, `this.save()` is called, and only then is
`currentWeek` advanced; no `save()` follows. -/
def completeWeekStored (st : Store) (writeOk : Bool) : Store :=
  let archived : AppState :=
    { st.state with
      metrics :=
        { st.state.metrics with
          wesHistory := archiveEntry (weekEntry st.state) st.state.metrics.wesHistory } }
  let st1 := save { st with state := archived } writeOk
  { st1 with
    state :=
      { st1.state with
        currentWeek := (if st1.state.currentWeek < 12 then st1.state.currentWeek + 1 else 13) } }

/-! ## Arithmetic of the binary64 model -/

theorem log2Floor_spec (fuel n : Nat) (hf : n ≤ fuel) (hn : 0 < n) :
    2 ^ log2Floor fuel n ≤ n ∧ n < 2 ^ (log2Floor fuel n + 1) := by
  induction fuel generalizing n with
  | zero => omega
  | succ f ih =>
    unfold log2Floor
    split_ifs with h
    · constructor
      · simpa using hn
      · simpa using h
    · obtain ⟨h1, h2⟩ := ih (n / 2) (by omega) (by omega)
      constructor
      · rw [pow_succ]; omega
      · rw [pow_succ]; omega

theorem roundHalfEven_le (n d M : Nat) (hd : 0 < d) (h : n ≤ M * d) :
    roundHalfEven n d ≤ M := by
  have hq : n / d ≤ M := Nat.div_le_of_le_mul (by rw [Nat.mul_comm]; exact h)
  have hdm := Nat.div_add_mod n d
  have hml := Nat.mod_lt n hd
  unfold roundHalfEven
  by_cases hlt : n / d < M
  · simp only
    split_ifs <;> omega
  · have hqM : n / d = M := by omega
    have hr : n % d = 0 := by
      rw [hqM] at hdm
      have : d * M = M * d := Nat.mul_comm d M
      omega
    simp only [hr, hqM]
    simp [hd]

theorem toDouble_den_pos (n d : Nat) : 0 < (toDouble n d).den := by
  unfold toDouble
  split_ifs
  · simp
  · simp only
    positivity

/-- Rounding to the nearest double never crosses an integer bound `K ≤ 2 ^ 52`. -/
theorem toDouble_le (n d K : Nat) (hd : 0 < d) (hK : K ≤ 2 ^ 52) (h : n ≤ K * d) :
    (toDouble n d).num ≤ K * (toDouble n d).den := by
  unfold toDouble
  split_ifs with h0
  · simp
  · have hn : 0 < n := Nat.pos_of_ne_zero h0
    obtain ⟨hln, -⟩ := log2Floor_spec n n le_rfl hn
    obtain ⟨-, hld⟩ := log2Floor_spec d d le_rfl hd
    simp only
    generalize log2Floor n n = ln at *
    generalize log2Floor d d = ld at *
    set k := if 2 ^ 53 * (d * 2 ^ ln) ≤ n * 2 ^ (53 + ld) then ln + 1 else ln with hk
    -- the scaled fraction is at least `2 ^ 52`
    have hlow : 2 ^ 52 * (d * 2 ^ k) ≤ n * 2 ^ (53 + ld) := by
      rw [hk]
      split_ifs with hc
      · calc 2 ^ 52 * (d * 2 ^ (ln + 1)) = 2 ^ 53 * (d * 2 ^ ln) := by ring
          _ ≤ n * 2 ^ (53 + ld) := hc
      · calc 2 ^ 52 * (d * 2 ^ ln) ≤ 2 ^ 52 * (2 ^ (ld + 1) * n) := by
              apply Nat.mul_le_mul_left
              exact Nat.mul_le_mul hld.le hln
          _ = n * 2 ^ (53 + ld) := by ring
    have hkup : k ≤ 53 + ld := by
      by_contra hcon
      push_neg at hcon
      have h1 : 2 ^ (53 + ld) * 2 ≤ 2 ^ k := by
        rw [← pow_succ]; exact Nat.pow_le_pow_right (by norm_num) hcon
      have h2 : n * 2 ^ (53 + ld) ≤ K * d * 2 ^ (53 + ld) := Nat.mul_le_mul_right _ h
      have h3 : K * d * 2 ^ (53 + ld) ≤ 2 ^ 52 * d * 2 ^ (53 + ld) :=
        Nat.mul_le_mul_right _ (Nat.mul_le_mul_right _ hK)
      have h4 : 2 ^ 52 * (d * (2 ^ (53 + ld) * 2)) ≤ 2 ^ 52 * (d * 2 ^ k) :=
        Nat.mul_le_mul_left _ (Nat.mul_le_mul_left _ h1)
      have hpos : 0 < 2 ^ 52 * d * 2 ^ (53 + ld) := by positivity
      nlinarith
    obtain ⟨e, he⟩ := Nat.exists_eq_add_of_le hkup
    have hpow : 2 ^ (53 + ld) = 2 ^ k * 2 ^ e := by rw [he, pow_add]
    have hm : roundHalfEven (n * 2 ^ (53 + ld)) (d * 2 ^ k) ≤ K * 2 ^ e := by
      apply roundHalfEven_le _ _ _ (by positivity)
      calc n * 2 ^ (53 + ld) ≤ K * d * 2 ^ (53 + ld) := Nat.mul_le_mul_right _ h
        _ = K * 2 ^ e * (d * 2 ^ k) := by rw [hpow]; ring
    calc roundHalfEven (n * 2 ^ (53 + ld)) (d * 2 ^ k) * 2 ^ k ≤ K * 2 ^ e * 2 ^ k :=
          Nat.mul_le_mul_right _ hm
      _ = K * 2 ^ (53 + ld) := by rw [hpow]; ring

theorem mathRound_le (x : Dbl) (K : Nat) (hden : 0 < x.den) (h : x.num ≤ K * x.den) :
    mathRound x ≤ K := by
  unfold mathRound
  have hpos : 0 < 2 * x.den := by positivity
  apply Nat.lt_succ_iff.mp
  rw [Nat.div_lt_iff_lt_mul hpos]
  nlinarith

/-- The rounded percentage of a ratio `c / t` with `c ≤ t` is at most `100`. -/
theorem wes_value_le (c t : Nat) (ht : 0 < t) (hct : c ≤ t) :
    mathRound (fmul (fdiv c t) 100) ≤ 100 := by
  have h1 : (fdiv c t).num ≤ 1 * (fdiv c t).den :=
    toDouble_le c t 1 ht (by norm_num) (by omega)
  have hd1 : 0 < (fdiv c t).den := toDouble_den_pos c t
  have h2 : (fmul (fdiv c t) 100).num ≤ 100 * (fmul (fdiv c t) 100).den := by
    unfold fmul
    exact toDouble_le _ _ 100 hd1 (by norm_num) (by omega)
  exact mathRound_le _ _ (toDouble_den_pos _ _) h2

/-! ## The counters of `calculateWES` -/

theorem foldl_wesVisit (w : Nat) (ts : List Tactic) (acc : Nat × Nat) :
    ts.foldl (wesVisit w) acc =
      (acc.1 + (ts.filter (fun t => resolveWeek t == w)).length,
       acc.2 + ((ts.filter (fun t => resolveWeek t == w)).filter (fun t => t.completed)).length) := by
  induction ts generalizing acc with
  | nil => simp
  | cons t ts ih =>
    rw [List.foldl_cons, ih]
    unfold wesVisit
    by_cases hw : (resolveWeek t == w) = true
    · by_cases hc : t.completed = true
      · simp [hw, hc]; omega
      · simp [hw, hc]; omega
    · simp [hw]

theorem foldl_goals_wesVisit (w : Nat) (gs : List Goal) (acc : Nat × Nat) :
    gs.foldl (fun acc g => g.tactics.foldl (wesVisit w) acc) acc =
      (acc.1 + ((gs.flatMap (fun g => g.tactics)).filter (fun t => resolveWeek t == w)).length,
       acc.2 + (((gs.flatMap (fun g => g.tactics)).filter
          (fun t => resolveWeek t == w)).filter (fun t => t.completed)).length) := by
  induction gs generalizing acc with
  | nil => simp
  | cons g gs ih =>
    rw [List.foldl_cons, ih, foldl_wesVisit]
    simp [List.flatMap_cons, List.filter_append]
    omega

/-- The loops of `calculateWES` count the current-week tactics and the completed ones
among them. -/
theorem wesCounts_eq (s : AppState) :
    wesCounts s = ((currentWeekTactics s).length,
      ((currentWeekTactics s).filter (fun t => t.completed)).length) := by
  unfold wesCounts currentWeekTactics
  rw [foldl_goals_wesVisit]
  simp

theorem wesCounts_le (s : AppState) : (wesCounts s).2 ≤ (wesCounts s).1 := by
  rw [wesCounts_eq]
  exact List.length_filter_le _ _

/-! ## Lemmas on `modifyFirst` -/

theorem modifyFirst_involutive {α : Type} (p : α → Bool) (f : α → α)
    (hp : ∀ x, p (f x) = p x) (hf : ∀ x, f (f x) = x) (l : List α) :
    modifyFirst p f (modifyFirst p f l) = l := by
  induction l with
  | nil => rfl
  | cons x xs ih =>
    by_cases hx : p x = true
    · have hfx : p (f x) = true := by rw [hp]; exact hx
      simp [modifyFirst, hx, hfx, hf]
    · simp [modifyFirst, hx, ih]

/-! ## Weekly execution score -/

/-- C1: with 23 of 40 current-week tactics completed the exact percentage is 57.5, which
the stated formula rounds to 58, while `calculateWES` returns 57: the quotient
`23 / 40` is rounded to a double below 0.575 before it is multiplied by 100. -/
theorem calculateWES_tie_rounds_down :
    wesCounts tieState = (40, 23) ∧ specWES tieState = 58 ∧ calculateWES tieState = 57 := by
  decide

/-- C2: `calculateWES` is an integer between 0 and 100 in every state. -/
theorem calculateWES_range (s : AppState) : 0 ≤ calculateWES s ∧ calculateWES s ≤ 100 := by
  refine ⟨Nat.zero_le _, ?_⟩
  unfold calculateWES
  simp only
  split_ifs with h
  · exact Nat.zero_le _
  · exact wes_value_le _ _ (Nat.pos_of_ne_zero h) (wesCounts_le s)

/-- C3, as stated, fails: in `idleState` two tactics match the current week and the score
is 0 all the same, because none of them is completed. -/
theorem calculateWES_zero_iff_fails :
    ¬ (calculateWES idleState = 0 ↔
        ∀ g ∈ idleState.goals, ∀ t ∈ g.tactics, resolveWeek t ≠ idleState.currentWeek) := by
  decide

/-- C3, amended: when no tactic of any goal has a resolved week equal to `currentWeek`,
`calculateWES` is 0. -/
theorem calculateWES_zero_of_no_match (s : AppState)
    (h : ∀ g ∈ s.goals, ∀ t ∈ g.tactics, resolveWeek t ≠ s.currentWeek) :
    calculateWES s = 0 := by
  have hnil : currentWeekTactics s = [] := by
    unfold currentWeekTactics
    rw [List.filter_eq_nil_iff]
    intro t ht
    obtain ⟨g, hg, htg⟩ := List.mem_flatMap.mp ht
    simpa using h g hg t htg
  unfold calculateWES
  simp [wesCounts_eq, hnil]

theorem calculateWES_zero_of_no_match_witness :
    (∀ g ∈ ({ defaultState with currentWeek := 2 } : AppState).goals, ∀ t ∈ g.tactics,
        resolveWeek t ≠ ({ defaultState with currentWeek := 2 } : AppState).currentWeek) ∧
      calculateWES { defaultState with currentWeek := 2 } = 0 :=
  ⟨by decide, calculateWES_zero_of_no_match _ (by decide)⟩

/-- C4: toggling the same tactic twice in succession gives back the original state, so
the tactic's `completed` flag and `calculateWES` are what they were. -/
theorem toggleTactic_twice (s : AppState) (goalId tacticId : String) :
    calculateWES (toggleTactic (toggleTactic s goalId tacticId) goalId tacticId) =
        calculateWES s ∧
      toggleTactic (toggleTactic s goalId tacticId) goalId tacticId = s := by
  have hs : toggleTactic (toggleTactic s goalId tacticId) goalId tacticId = s := by
    unfold toggleTactic
    simp only
    rw [modifyFirst_involutive]
    · intro g; rfl
    · intro g
      simp only
      rw [modifyFirst_involutive]
      · intro t; rfl
      · intro t; cases t; simp
  exact ⟨by rw [hs], hs⟩

/-! ## Recurring creation -/

theorem foldl_push_eq_append_map {α β : Type} (f : α → β) (l : List α) (base : List β) :
    l.foldl (fun ts w => ts ++ [f w]) base = base ++ l.map f := by
  induction l generalizing base with
  | nil => simp
  | cons x xs ih => simp [ih]

theorem recurringTactic_id_tail (title : String) (now w : Nat) :
    (recurringTactic title now w).id.data.reverse.take 2 = weekTail w := by
  unfold recurringTactic weekTail
  simp only [String.data_append, List.reverse_append]
  rw [← List.append_assoc, List.take_append_of_le_length]
  · rfl
  · simp

theorem weekTail_injOn :
    ∀ a ∈ List.range' 1 12, ∀ b ∈ List.range' 1 12, weekTail a = weekTail b → a = b := by
  decide

/-- C5: for an existing goal and a non-empty title, recurring creation appends exactly
twelve tactics to the goal's list, for the weeks 1 to 12 in increasing order, each not
completed and with the given title, with pairwise distinct ids; the tactics the goal
already had stay in front, unchanged. -/
theorem createTactic_recurring (s : AppState) (gi : Nat) (goal : Goal) (week : Option Nat)
    (title : String) (clock : Nat → Nat)
    (hgoal : s.goals[gi]? = some goal) (htitle : title ≠ "") :
    ∃ added : List Tactic,
      ((_createTactic s gi week true title clock).goals[gi]?).map (fun g => g.tactics) =
          some (goal.tactics ++ added) ∧
        added.length = 12 ∧
        added.map (fun t => t.week) = (List.range' 1 12).map some ∧
        (∀ t ∈ added, t.completed = false ∧ t.title = title) ∧
        (added.map (fun t => t.id)).Nodup := by
  refine ⟨(List.range' 1 12).map (fun w => recurringTactic title (clock w) w), ?_, ?_, ?_, ?_, ?_⟩
  · have hlt : gi < s.goals.length := by
      rcases Nat.lt_or_ge gi s.goals.length with h | h
      · exact h
      · rw [List.getElem?_eq_none h] at hgoal; cases hgoal
    unfold _createTactic
    simp only [htitle, if_false, hgoal, if_true]
    rw [foldl_push_eq_append_map]
    cases week <;> simp [List.getElem?_set, hlt]
  · simp
  · simp [recurringTactic]
  · intro t ht
    obtain ⟨w, -, rfl⟩ := List.mem_map.mp ht
    exact ⟨rfl, rfl⟩
  · rw [List.map_map]
    refine List.Nodup.map_on ?_ (List.nodup_range' 1 12)
    intro a ha b hb hab
    apply weekTail_injOn a ha b hb
    have h2 := congrArg (fun i : String => i.data.reverse.take 2) hab
    simpa [recurringTactic_id_tail] using h2

theorem createTactic_recurring_witness :
    defaultState.goals[0]? = some
        { id := "g1", title := "Launch MVP Website",
          tactics := [
            { id := "t1", title := "Draft PRFAQ", completed := false, week := none },
            { id := "t2", title := "Set up Repo", completed := true, week := none } ] } ∧
      "Read" ≠ "" ∧
      ∃ added : List Tactic,
        ((_createTactic defaultState 0 none true "Read" (fun _ => 1700000000000)).goals[0]?).map
            (fun g => g.tactics) =
          some ([{ id := "t1", title := "Draft PRFAQ", completed := false, week := none },
                 { id := "t2", title := "Set up Repo", completed := true, week := none }] ++
                added) ∧
        added.length = 12 ∧
        added.map (fun t => t.week) = (List.range' 1 12).map some ∧
        (∀ t ∈ added, t.completed = false ∧ t.title = "Read") ∧
        (added.map (fun t => t.id)).Nodup :=
  ⟨rfl, by decide, createTactic_recurring defaultState 0 _ none "Read" _ rfl (by decide)⟩

/-! ## Lookup and in-place update of goals -/

theorem find?_modifyFirst_same (a : String) (f : Goal → Goal) (hf : ∀ g, (f g).id = g.id)
    (gs : List Goal) :
    (modifyFirst (fun g => g.id == a) f gs).find? (fun g => g.id == a) =
      (gs.find? (fun g => g.id == a)).map f := by
  induction gs with
  | nil => rfl
  | cons g gs ih =>
    by_cases hg : (g.id == a) = true
    · have hfg : ((f g).id == a) = true := by rw [hf]; exact hg
      simp [modifyFirst, hg, hfg]
    · simp [modifyFirst, hg, List.find?_cons, ih]

theorem find?_modifyFirst_ne (a b : String) (hab : a ≠ b) (f : Goal → Goal)
    (hf : ∀ g, (f g).id = g.id) (gs : List Goal) :
    (modifyFirst (fun g => g.id == a) f gs).find? (fun g => g.id == b) =
      gs.find? (fun g => g.id == b) := by
  induction gs with
  | nil => rfl
  | cons g gs ih =>
    by_cases hg : (g.id == a) = true
    · have hga : g.id = a := by simpa using hg
      have hgb : ¬ (g.id == b) = true := by simpa [hga] using hab
      have hfgb : ¬ ((f g).id == b) = true := by rw [hf]; exact hgb
      simp [modifyFirst, hg, hgb, hfgb]
    · by_cases hgb : (g.id == b) = true
      · simp [modifyFirst, hg, hgb]
      · simp [modifyFirst, hg, List.find?_cons, hgb, ih]

theorem modifyFirst_modifyFirst (a : String) (f h : Goal → Goal) (hf : ∀ g, (f g).id = g.id)
    (gs : List Goal) :
    modifyFirst (fun g => g.id == a) h (modifyFirst (fun g => g.id == a) f gs) =
      modifyFirst (fun g => g.id == a) (fun g => h (f g)) gs := by
  induction gs with
  | nil => rfl
  | cons g gs ih =>
    by_cases hg : (g.id == a) = true
    · have hfg : ((f g).id == a) = true := by rw [hf]; exact hg
      simp [modifyFirst, hg, hfg]
    · simp [modifyFirst, hg, ih]

theorem sum_length_modifyFirst (a : String) (f : Goal → Goal) (gs : List Goal) (G : Goal)
    (hG : gs.find? (fun g => g.id == a) = some G) :
    ((modifyFirst (fun g => g.id == a) f gs).map (fun g => g.tactics.length)).sum +
        G.tactics.length =
      (gs.map (fun g => g.tactics.length)).sum + (f G).tactics.length := by
  induction gs with
  | nil => simp at hG
  | cons g gs ih =>
    by_cases hg : (g.id == a) = true
    · have : g = G := by simpa [List.find?_cons, hg] using hG
      subst this
      simp [modifyFirst, hg]
      omega
    · have hG2 : gs.find? (fun g => g.id == a) = some G := by
        simpa [List.find?_cons, hg] using hG
      have := ih hG2
      simp [modifyFirst, hg]
      omega

/-! ## The two insertion branches -/

theorem findIndex_append_cons {α : Type} (p : α → Bool) (pre post : List α) (x : α)
    (hpre : ∀ a ∈ pre, ¬ p a = true) (hx : p x = true) :
    findIndex p (pre ++ x :: post) = some pre.length := by
  induction pre with
  | nil => simp [findIndex, hx]
  | cons a pre ih =>
    have ha : ¬ p a = true := hpre a (List.mem_cons_self _ _)
    have := ih (fun b hb => hpre b (List.mem_cons_of_mem _ hb))
    simp [findIndex, ha, this]

theorem findIndex_eq_none {α : Type} (p : α → Bool) (l : List α)
    (h : ∀ a ∈ l, ¬ p a = true) : findIndex p l = none := by
  induction l with
  | nil => rfl
  | cons a l ih =>
    have ha : ¬ p a = true := h a (List.mem_cons_self _ _)
    have := ih (fun b hb => h b (List.mem_cons_of_mem _ hb))
    simp [findIndex, ha, this]

theorem insertBeforeTactic_split (pre post : List Tactic) (T x : Tactic) (tid : String)
    (hpre : ∀ t ∈ pre, t.id ≠ tid) (hT : T.id = tid) :
    insertBeforeTactic (pre ++ T :: post) tid x = pre ++ x :: T :: post := by
  unfold insertBeforeTactic
  rw [findIndex_append_cons (fun t => t.id == tid) pre post T
    (by intro t ht; simpa using hpre t ht) (by simpa using hT)]
  simp

theorem insertBeforeTactic_missing (l : List Tactic) (x : Tactic) (tid : String)
    (h : ∀ t ∈ l, t.id ≠ tid) : insertBeforeTactic l tid x = l ++ [x] := by
  unfold insertBeforeTactic
  rw [findIndex_eq_none (fun t => t.id == tid) l (by intro t ht; simpa using h t ht)]

theorem filter_enumFrom_eq_nil (w n : Nat) (l : List Tactic)
    (h : ∀ t ∈ l, resolveWeek t ≠ w) :
    (l.enumFrom n).filter (fun it => resolveWeek it.2 == w) = [] := by
  rw [List.filter_eq_nil_iff]
  rintro ⟨i, t⟩ hit
  have hmem : t ∈ l := by
    obtain ⟨-, -, hget⟩ := List.mem_enumFrom hit
    rw [hget]
    exact List.getElem_mem _
  simpa using h t hmem

theorem insertAfterWeek_split (pre post : List Tactic) (last x : Tactic) (w : Nat)
    (hlast : resolveWeek last = w) (hpost : ∀ t ∈ post, resolveWeek t ≠ w) :
    insertAfterWeek (pre ++ last :: post) w x = pre ++ last :: x :: post := by
  unfold insertAfterWeek
  have hlastIdx : ((pre ++ last :: post).enum.filter
      (fun it => resolveWeek it.2 == w)).getLast? = some (pre.length, last) := by
    unfold List.enum
    rw [List.enumFrom_append, List.filter_append, List.enumFrom_cons, List.filter_cons]
    simp only [hlast, beq_self_eq_true, if_true]
    rw [filter_enumFrom_eq_nil w _ post hpost]
    simp
  simp only [hlastIdx]
  have h1 : List.take (pre.length + 1) (pre ++ last :: post) = pre ++ [last] := by
    have : pre ++ last :: post = (pre ++ [last]) ++ post := by simp
    rw [this]
    exact List.take_left' (by simp)
  have h2 : List.drop (pre.length + 1) (pre ++ last :: post) = post := by
    have : pre ++ last :: post = (pre ++ [last]) ++ post := by simp
    rw [this]
    exact List.drop_left' (by simp)
  rw [h1, h2]
  simp

theorem insertAfterWeek_missing (l : List Tactic) (x : Tactic) (w : Nat)
    (h : ∀ t ∈ l, resolveWeek t ≠ w) : insertAfterWeek l w x = l ++ [x] := by
  unfold insertAfterWeek List.enum
  rw [filter_enumFrom_eq_nil w 0 l h]
  rfl

theorem exists_last_split (w : Nat) (l : List Tactic) (h : ∃ t ∈ l, resolveWeek t = w) :
    ∃ pre last post, l = pre ++ last :: post ∧ resolveWeek last = w ∧
      ∀ t ∈ post, resolveWeek t ≠ w := by
  induction l with
  | nil => simp at h
  | cons a l ih =>
    by_cases hl : ∃ t ∈ l, resolveWeek t = w
    · obtain ⟨pre, last, post, rfl, h1, h2⟩ := ih hl
      exact ⟨a :: pre, last, post, rfl, h1, h2⟩
    · push_neg at hl
      obtain ⟨t, ht, htw⟩ := h
      rcases List.mem_cons.mp ht with rfl | ht
      · exact ⟨[], t, l, rfl, htw, hl⟩
      · exact absurd htw (hl t ht)

theorem length_insertBeforeTactic (l : List Tactic) (tid : String) (x : Tactic) :
    (insertBeforeTactic l tid x).length = l.length + 1 := by
  unfold insertBeforeTactic
  split
  · simp
    omega
  · simp

theorem length_insertAfterWeek (l : List Tactic) (w : Nat) (x : Tactic) :
    (insertAfterWeek l w x).length = l.length + 1 := by
  unfold insertAfterWeek
  simp only
  split
  · simp
    omega
  · simp

theorem length_insertMoved (l : List Tactic) (tgt : MoveTarget) (x : Tactic) :
    (insertMoved l tgt x).length = l.length + 1 := by
  unfold insertMoved
  split
  · split_ifs
    · exact length_insertAfterWeek _ _ _
    · exact length_insertBeforeTactic _ _ _
  · exact length_insertAfterWeek _ _ _

/-! ## The move as a whole -/

theorem tacticsOf_afterRemoval_same (s : AppState) (src : MoveSource) (A : Goal)
    (hA : s.goals.find? (fun g => g.id == src.goalId) = some A) :
    tacticsOf (afterRemoval s src) src.goalId =
      A.tactics.eraseP (fun t => t.id == src.tacticId) := by
  unfold tacticsOf afterRemoval
  simp only
  rw [find?_modifyFirst_same src.goalId (spliceOut src.tacticId) (fun _ => rfl), hA]
  rfl

theorem find?_afterRemoval_ne (s : AppState) (src : MoveSource) (gid : String)
    (hne : src.goalId ≠ gid) :
    (afterRemoval s src).goals.find? (fun g => g.id == gid) =
      s.goals.find? (fun g => g.id == gid) := by
  unfold afterRemoval
  simp only
  rw [find?_modifyFirst_ne _ _ hne (spliceOut src.tacticId) (fun _ => rfl)]

theorem tacticsOf_afterRemoval_ne (s : AppState) (src : MoveSource) (gid : String)
    (hne : src.goalId ≠ gid) :
    tacticsOf (afterRemoval s src) gid = tacticsOf s gid := by
  unfold tacticsOf
  rw [find?_afterRemoval_ne s src gid hne]

theorem find?_afterRemoval_isSome (s : AppState) (src : MoveSource) (gid : String) (B : Goal)
    (hB : s.goals.find? (fun g => g.id == gid) = some B) :
    ∃ B1, (afterRemoval s src).goals.find? (fun g => g.id == gid) = some B1 := by
  by_cases h : src.goalId = gid
  · subst h
    unfold afterRemoval
    simp only
    rw [find?_modifyFirst_same src.goalId (spliceOut src.tacticId) (fun _ => rfl), hB]
    exact ⟨_, rfl⟩
  · exact ⟨B, by rw [find?_afterRemoval_ne s src gid h, hB]⟩

theorem totalTactics_afterRemoval (s : AppState) (src : MoveSource) (A : Goal) (m : Tactic)
    (hA : s.goals.find? (fun g => g.id == src.goalId) = some A)
    (hm : A.tactics.find? (fun t => t.id == src.tacticId) = some m) :
    totalTactics (afterRemoval s src) + 1 = totalTactics s := by
  have hsum := sum_length_modifyFirst src.goalId (spliceOut src.tacticId) s.goals A hA
  have hlen := List.length_eraseP_of_mem (List.mem_of_find?_eq_some hm) (List.find?_some hm)
  have hpos : 0 < A.tactics.length := List.length_pos_of_mem (List.mem_of_find?_eq_some hm)
  unfold totalTactics afterRemoval
  simp only [spliceOut] at hsum hlen ⊢
  omega

/-- When the source tactic and the target goal are found, the call returns, the target
goal's array is the array it had after the removal with the moved tactic inserted, and
the number of tactics is what it was. -/
theorem handleTacticMove_found (s : AppState) (src : MoveSource) (tgt : MoveTarget)
    (A B : Goal) (m : Tactic)
    (hA : s.goals.find? (fun g => g.id == src.goalId) = some A)
    (hm : A.tactics.find? (fun t => t.id == src.tacticId) = some m)
    (hB : s.goals.find? (fun g => g.id == tgt.goalId) = some B) :
    ∃ s1, handleTacticMove s src tgt = .returned s1 ∧
      tacticsOf s1 tgt.goalId =
        insertMoved (tacticsOf (afterRemoval s src) tgt.goalId) tgt
          { m with week := some tgt.week } ∧
      (src.goalId ≠ tgt.goalId →
        tacticsOf s1 src.goalId = A.tactics.eraseP (fun t => t.id == src.tacticId)) ∧
      totalTactics s1 = totalTactics s := by
  obtain ⟨B1, hB1⟩ := find?_afterRemoval_isSome s src tgt.goalId B hB
  refine ⟨{ afterRemoval s src with
      goals := (modifyFirst (fun g => g.id == tgt.goalId)
        (spliceIn tgt { m with week := some tgt.week }) (afterRemoval s src).goals) },
    ?_, ?_, ?_, ?_⟩
  · unfold handleTacticMove
    simp only [hA, hm, hB1]
  · unfold tacticsOf
    simp only
    rw [find?_modifyFirst_same tgt.goalId (spliceIn tgt _) (fun _ => rfl), hB1]
    rfl
  · intro hne
    have h1 : tacticsOf (afterRemoval s src) src.goalId =
        A.tactics.eraseP (fun t => t.id == src.tacticId) :=
      tacticsOf_afterRemoval_same s src A hA
    rw [← h1]
    unfold tacticsOf
    simp only
    rw [find?_modifyFirst_ne _ _ (Ne.symm hne) (spliceIn tgt _) (fun _ => rfl)]
  · have hsum := sum_length_modifyFirst tgt.goalId
      (spliceIn tgt { m with week := some tgt.week }) (afterRemoval s src).goals B1 hB1
    have hrem := totalTactics_afterRemoval s src A m hA hm
    have hins := length_insertMoved B1.tactics tgt { m with week := some tgt.week }
    unfold totalTactics at hrem ⊢
    simp only [spliceIn] at hsum ⊢
    omega

theorem mem_tacticsOf_afterRemoval (s : AppState) (src : MoveSource) (gid : String) (B : Goal)
    (hB : s.goals.find? (fun g => g.id == gid) = some B) :
    ∀ t ∈ tacticsOf (afterRemoval s src) gid, t ∈ B.tactics := by
  intro t ht
  by_cases h : src.goalId = gid
  · subst h
    rw [tacticsOf_afterRemoval_same s src B hB] at ht
    exact List.mem_of_mem_eraseP ht
  · rw [tacticsOf_afterRemoval_ne s src gid h] at ht
    unfold tacticsOf at ht
    rw [hB] at ht
    exact ht

theorem nodup_ids_split (l : List Tactic) (x : Tactic)
    (hnd : (l.map (fun t => t.id)).Nodup) (hx : x ∈ l) :
    ∃ pre post, l = pre ++ x :: post ∧ (∀ t ∈ pre, t.id ≠ x.id) ∧
      (∀ t ∈ post, t.id ≠ x.id) := by
  obtain ⟨pre, post, rfl⟩ := List.append_of_mem hx
  refine ⟨pre, post, rfl, ?_, ?_⟩
  · intro t ht hid
    rw [List.map_append, List.map_cons, List.nodup_append] at hnd
    exact hnd.2.2 (List.mem_map_of_mem _ ht) (by rw [hid]; exact List.mem_cons_self _ _)
  · intro t ht hid
    rw [List.map_append, List.map_cons, List.nodup_append, List.nodup_cons] at hnd
    exact hnd.2.1.1 (by rw [← hid]; exact List.mem_map_of_mem _ ht)

theorem find?_split (pre post : List Tactic) (x : Tactic) (hpre : ∀ t ∈ pre, t.id ≠ x.id) :
    (pre ++ x :: post).find? (fun t => t.id == x.id) = some x := by
  rw [List.find?_eq_some]
  exact ⟨by simp, pre, post, rfl, by intro a ha; simpa using hpre a ha⟩

theorem eraseP_split (pre post : List Tactic) (x : Tactic) (hpre : ∀ t ∈ pre, t.id ≠ x.id) :
    (pre ++ x :: post).eraseP (fun t => t.id == x.id) = pre ++ post := by
  rw [List.eraseP_append_right _ (by intro b hb; simpa using hpre b hb),
    List.eraseP_cons_of_pos (by simp)]

theorem filter_ne_split (pre post : List Tactic) (x : Tactic) (i : String) (hx : x.id = i)
    (hpre : ∀ t ∈ pre, t.id ≠ i) (hpost : ∀ t ∈ post, t.id ≠ i) :
    (pre ++ x :: post).filter (fun t => t.id != i) = pre ++ post := by
  rw [List.filter_append, List.filter_cons]
  have h1 : pre.filter (fun t => t.id != i) = pre :=
    List.filter_eq_self.mpr (by intro t ht; simpa using hpre t ht)
  have h2 : post.filter (fun t => t.id != i) = post :=
    List.filter_eq_self.mpr (by intro t ht; simpa using hpost t ht)
  simp [h1, h2, hx]

/-! ## Tactic moves -/

/-- C6: a move from goal `A` (tactic `m`) onto tactic `T` of a different goal `B` returns
normally; `B`'s list then holds `m`, with its week set to the target week, immediately
before `T`; `A`'s list is its old list without `m`; the number of tactics across all goals
is unchanged. `A`, `m`, `B` and `T` are what the ids of the request resolve to, and the
target tactic id is given (a non-empty string). -/
theorem move_onto_tactic_across_goals (s : AppState) (src : MoveSource)
    (tgt : MoveTarget) (A B : Goal) (m T : Tactic)
    (hA : s.goals.find? (fun g => g.id == src.goalId) = some A)
    (hB : s.goals.find? (fun g => g.id == tgt.goalId) = some B)
    (hAB : src.goalId ≠ tgt.goalId)
    (hm : A.tactics.find? (fun t => t.id == src.tacticId) = some m)
    (hT : B.tactics.find? (fun t => t.id == T.id) = some T)
    (htid : tgt.tacticId = some T.id) (hne : T.id ≠ "") :
    ∃ s1, handleTacticMove s src tgt = .returned s1 ∧
      (∃ pre post, B.tactics = pre ++ T :: post ∧
        tacticsOf s1 tgt.goalId = pre ++ { m with week := some tgt.week } :: T :: post) ∧
      (∃ pre post, A.tactics = pre ++ m :: post ∧ tacticsOf s1 src.goalId = pre ++ post) ∧
      ((A.tactics.map (fun t => t.id)).Nodup →
        ∀ t ∈ tacticsOf s1 src.goalId, t.id ≠ m.id) ∧
      totalTactics s1 = totalTactics s := by
  obtain ⟨s1, hret, htgt, hsrc, htot⟩ := handleTacticMove_found s src tgt A B m hA hm hB
  have hsrc1 := hsrc hAB
  have hmid : m.id = src.tacticId := by simpa using List.find?_some hm
  obtain ⟨-, as, bs, hAsplit, has⟩ := List.find?_eq_some.mp hm
  have has1 : ∀ t ∈ as, t.id ≠ m.id := by
    intro t ht; rw [hmid]; simpa using has t ht
  have herase : A.tactics.eraseP (fun t => t.id == src.tacticId) = as ++ bs := by
    rw [hAsplit, ← hmid]; exact eraseP_split as bs m has1
  obtain ⟨-, pre, post, hBsplit, hpre⟩ := List.find?_eq_some.mp hT
  have hpre1 : ∀ t ∈ pre, t.id ≠ T.id := by
    intro t ht; simpa using hpre t ht
  refine ⟨s1, hret, ⟨pre, post, hBsplit, ?_⟩, ⟨as, bs, hAsplit, ?_⟩, ?_, htot⟩
  · rw [htgt, tacticsOf_afterRemoval_ne s src tgt.goalId hAB]
    unfold tacticsOf insertMoved
    simp only [hB, htid, hne, if_false]
    rw [hBsplit]
    exact insertBeforeTactic_split pre post T _ T.id hpre1 rfl
  · rw [hsrc1, herase]
  · intro hnd t ht
    rw [hsrc1, herase] at ht
    obtain ⟨pre2, post2, hsplit2, hp1, hp2⟩ :=
      nodup_ids_split A.tactics m hnd (List.mem_of_find?_eq_some hm)
    have hfil : A.tactics.filter (fun t => t.id != m.id) = as ++ bs := by
      have h1 := filter_ne_split pre2 post2 m m.id rfl hp1 hp2
      rw [← hsplit2] at h1
      have h2 := eraseP_split pre2 post2 m hp1
      rw [← hsplit2, hmid, herase] at h2
      rw [h1, h2]
    rw [← hfil] at ht
    simpa using (List.mem_filter.mp ht).2

/-- C7: within one goal whose tactic ids are pairwise distinct, dropping `m` onto a
different tactic `T` gives the old list with `m` taken out and put back immediately before
`T` (with its week set to the target week): the other tactics keep their order and the
list keeps its length. -/
theorem move_onto_tactic_same_goal (s : AppState) (src : MoveSource) (tgt : MoveTarget)
    (G : Goal) (m T : Tactic)
    (hG : s.goals.find? (fun g => g.id == src.goalId) = some G)
    (hsame : tgt.goalId = src.goalId)
    (hnd : (G.tactics.map (fun t => t.id)).Nodup)
    (hm : m ∈ G.tactics) (hT : T ∈ G.tactics) (hmT : m.id ≠ T.id)
    (hsrc : src.tacticId = m.id) (htid : tgt.tacticId = some T.id) (hne : T.id ≠ "") :
    ∃ s1 pre post, handleTacticMove s src tgt = .returned s1 ∧
      G.tactics.filter (fun t => t.id != m.id) = pre ++ T :: post ∧
      tacticsOf s1 src.goalId = pre ++ { m with week := some tgt.week } :: T :: post ∧
      (tacticsOf s1 src.goalId).filter (fun t => t.id != m.id) =
        G.tactics.filter (fun t => t.id != m.id) ∧
      (tacticsOf s1 src.goalId).length = G.tactics.length := by
  obtain ⟨as, bs, hsplit, has, hbs⟩ := nodup_ids_split G.tactics m hnd hm
  have hfind : G.tactics.find? (fun t => t.id == src.tacticId) = some m := by
    rw [hsplit, hsrc]; exact find?_split as bs m has
  have hG2 : s.goals.find? (fun g => g.id == tgt.goalId) = some G := by rw [hsame]; exact hG
  obtain ⟨s1, hret, htgt, -, -⟩ := handleTacticMove_found s src tgt G G m hG hfind hG2
  have hrest : tacticsOf (afterRemoval s src) tgt.goalId = as ++ bs := by
    rw [hsame, tacticsOf_afterRemoval_same s src G hG, hsplit, hsrc]
    exact eraseP_split as bs m has
  have hfil : G.tactics.filter (fun t => t.id != m.id) = as ++ bs := by
    rw [hsplit]; exact filter_ne_split as bs m m.id rfl has hbs
  have hndrest : ((as ++ bs).map (fun t => t.id)).Nodup := by
    rw [← hfil]
    exact (List.Nodup.sublist (List.Sublist.map _ (List.filter_sublist _)) hnd)
  have hTrest : T ∈ as ++ bs := by
    rw [← hfil]
    exact List.mem_filter.mpr ⟨hT, by simpa using (Ne.symm hmT)⟩
  obtain ⟨pre, post, hps, hpre, hpost⟩ := nodup_ids_split (as ++ bs) T hndrest hTrest
  have hnew : tacticsOf s1 src.goalId =
      pre ++ { m with week := some tgt.week } :: T :: post := by
    rw [← hsame, htgt, hrest]
    unfold insertMoved
    simp only [htid, hne, if_false]
    rw [hps]
    exact insertBeforeTactic_split pre post T _ T.id hpre rfl
  have hother : ∀ t ∈ as ++ bs, t.id ≠ m.id := by
    intro t ht
    rcases List.mem_append.mp ht with h | h
    · exact has t h
    · exact hbs t h
  refine ⟨s1, pre, post, hret, by rw [hfil, hps], hnew, ?_, ?_⟩
  · rw [hnew, hfil, hps]
    have h1 : ∀ t ∈ pre, t.id ≠ m.id := by
      intro t ht; exact hother t (by rw [hps]; exact List.mem_append_left _ ht)
    have h2 : ∀ t ∈ T :: post, t.id ≠ m.id := by
      intro t ht; exact hother t (by rw [hps]; exact List.mem_append_right _ ht)
    exact filter_ne_split pre (T :: post) { m with week := some tgt.week } m.id rfl h1 h2
  · rw [hnew, hsplit]
    have : (as ++ bs).length = (pre ++ T :: post).length := by rw [hps]
    simp at this ⊢
    omega

/-- C8: a drop on a week container (no target tactic id), with the source tactic and the
target goal found and at least one tactic of the target week in the target goal's list
after the removal, returns normally and puts the moved tactic, its week set to the target
week, immediately after the last tactic of that week; the rest of the list is as it
was. -/
theorem move_onto_week_after_last (s : AppState) (src : MoveSource) (tgt : MoveTarget)
    (A B : Goal) (m : Tactic)
    (hA : s.goals.find? (fun g => g.id == src.goalId) = some A)
    (hm : A.tactics.find? (fun t => t.id == src.tacticId) = some m)
    (hB : s.goals.find? (fun g => g.id == tgt.goalId) = some B)
    (hnone : tgt.tacticId = none)
    (hex : ∃ t ∈ tacticsOf (afterRemoval s src) tgt.goalId, resolveWeek t = tgt.week) :
    ∃ s1 pre last post, handleTacticMove s src tgt = .returned s1 ∧
      tacticsOf (afterRemoval s src) tgt.goalId = pre ++ last :: post ∧
      resolveWeek last = tgt.week ∧
      (∀ t ∈ post, resolveWeek t ≠ tgt.week) ∧
      tacticsOf s1 tgt.goalId = pre ++ last :: { m with week := some tgt.week } :: post := by
  obtain ⟨s1, hret, htgt, -, -⟩ := handleTacticMove_found s src tgt A B m hA hm hB
  obtain ⟨pre, last, post, hsplit, hlast, hpost⟩ := exists_last_split tgt.week _ hex
  refine ⟨s1, pre, last, post, hret, hsplit, hlast, hpost, ?_⟩
  rw [htgt, hsplit]
  unfold insertMoved
  simp only [hnone]
  exact insertAfterWeek_split pre post last _ tgt.week hlast hpost

/-- C9: a drop on a week container for a week (from 1 on) of which the target goal has no
tactic returns normally and appends the moved tactic to the target goal's list; filtering
that list by the target week then gives the moved tactic alone. -/
theorem move_onto_empty_week (s : AppState) (src : MoveSource) (tgt : MoveTarget)
    (A B : Goal) (m : Tactic)
    (hA : s.goals.find? (fun g => g.id == src.goalId) = some A)
    (hm : A.tactics.find? (fun t => t.id == src.tacticId) = some m)
    (hB : s.goals.find? (fun g => g.id == tgt.goalId) = some B)
    (hnone : tgt.tacticId = none)
    (hweek : 1 ≤ tgt.week)
    (hzero : ∀ t ∈ B.tactics, resolveWeek t ≠ tgt.week) :
    ∃ s1, handleTacticMove s src tgt = .returned s1 ∧
      tacticsOf s1 tgt.goalId =
        tacticsOf (afterRemoval s src) tgt.goalId ++ [{ m with week := some tgt.week }] ∧
      (tacticsOf s1 tgt.goalId).filter (fun t => resolveWeek t == tgt.week) =
        [{ m with week := some tgt.week }] := by
  obtain ⟨s1, hret, htgt, -, -⟩ := handleTacticMove_found s src tgt A B m hA hm hB
  have hrest : ∀ t ∈ tacticsOf (afterRemoval s src) tgt.goalId, resolveWeek t ≠ tgt.week :=
    fun t ht => hzero t (mem_tacticsOf_afterRemoval s src tgt.goalId B hB t ht)
  have hnew : tacticsOf s1 tgt.goalId =
      tacticsOf (afterRemoval s src) tgt.goalId ++ [{ m with week := some tgt.week }] := by
    rw [htgt]
    unfold insertMoved
    simp only [hnone]
    exact insertAfterWeek_missing _ _ tgt.week hrest
  refine ⟨s1, hret, hnew, ?_⟩
  have hmoved : resolveWeek { m with week := some tgt.week } = tgt.week := by
    unfold resolveWeek
    simp only
    split
    · rename_i h; cases h
    · rename_i h; injection h with h; omega
    · rename_i h; injection h with h; exact h.symm
  rw [hnew, List.filter_append,
    List.filter_eq_nil_iff.mpr (by intro t ht; simpa using hrest t ht)]
  simp [hmoved]

/-- C10: when the source goal id matches no goal, or the source tactic id matches no
tactic of the source goal, `handleTacticMove` returns normally with the state exactly as
it was. -/
theorem move_missing_source (s : AppState) (src : MoveSource) (tgt : MoveTarget)
    (h : (∀ g ∈ s.goals, g.id ≠ src.goalId) ∨
      (∀ t ∈ tacticsOf s src.goalId, t.id ≠ src.tacticId)) :
    handleTacticMove s src tgt = .returned s := by
  unfold handleTacticMove
  rcases h with h | h
  · have hnone : s.goals.find? (fun g => g.id == src.goalId) = none :=
      List.find?_eq_none.mpr (by intro g hg; simpa using h g hg)
    simp only [hnone]
  · unfold tacticsOf at h
    cases hfind : s.goals.find? (fun g => g.id == src.goalId) with
    | none => rfl
    | some A =>
      rw [hfind] at h
      have hnone : A.tactics.find? (fun t => t.id == src.tacticId) = none :=
        List.find?_eq_none.mpr (by intro t ht; simpa using h t ht)
      simp only [hnone]

/-! ## Instances on `boardState` -/

theorem move_onto_tactic_across_goals_witness :
    boardState.goals.find? (fun g => g.id == "gA") = some boardGoalA ∧
      boardState.goals.find? (fun g => g.id == "gB") = some boardGoalB ∧
      ∃ s1, handleTacticMove boardState ⟨"gA", 3, "a2"⟩ ⟨"gB", 5, some "b2"⟩ = .returned s1 ∧
        (∃ pre post,
          boardGoalB.tactics = pre ++
            { id := "b2", title := "Chapter one", completed := false, week := some 2 } :: post ∧
          tacticsOf s1 "gB" = pre ++
            { id := "a2", title := "Set up Repo", completed := true, week := some 5 } ::
            { id := "b2", title := "Chapter one", completed := false, week := some 2 } :: post) ∧
        (∃ pre post,
          boardGoalA.tactics = pre ++
            { id := "a2", title := "Set up Repo", completed := true, week := some 3 } :: post ∧
          tacticsOf s1 "gA" = pre ++ post) ∧
        ((boardGoalA.tactics.map (fun t => t.id)).Nodup →
          ∀ t ∈ tacticsOf s1 "gA", t.id ≠ "a2") ∧
        totalTactics s1 = totalTactics boardState :=
  ⟨by decide, by decide,
    move_onto_tactic_across_goals boardState ⟨"gA", 3, "a2"⟩ ⟨"gB", 5, some "b2"⟩
      boardGoalA boardGoalB
      { id := "a2", title := "Set up Repo", completed := true, week := some 3 }
      { id := "b2", title := "Chapter one", completed := false, week := some 2 }
      (by decide) (by decide) (by decide) (by decide) (by decide) rfl (by decide)⟩

theorem move_onto_tactic_same_goal_witness :
    (boardGoalA.tactics.map (fun t => t.id)).Nodup ∧
      ∃ s1 pre post, handleTacticMove boardState ⟨"gA", 5, "a3"⟩ ⟨"gA", 3, some "a1"⟩ =
          .returned s1 ∧
        boardGoalA.tactics.filter (fun t => t.id != "a3") = pre ++
          { id := "a1", title := "Draft PRFAQ", completed := false, week := some 3 } :: post ∧
        tacticsOf s1 "gA" = pre ++
          { id := "a3", title := "Ship landing page", completed := false, week := some 3 } ::
          { id := "a1", title := "Draft PRFAQ", completed := false, week := some 3 } :: post ∧
        (tacticsOf s1 "gA").filter (fun t => t.id != "a3") =
          boardGoalA.tactics.filter (fun t => t.id != "a3") ∧
        (tacticsOf s1 "gA").length = boardGoalA.tactics.length :=
  ⟨by decide,
    move_onto_tactic_same_goal boardState ⟨"gA", 5, "a3"⟩ ⟨"gA", 3, some "a1"⟩ boardGoalA
      { id := "a3", title := "Ship landing page", completed := false, week := some 5 }
      { id := "a1", title := "Draft PRFAQ", completed := false, week := some 3 }
      (by decide) rfl (by decide) (by decide) (by decide) (by decide) rfl rfl (by decide)⟩

theorem move_onto_week_after_last_witness :
    (∃ t ∈ tacticsOf (afterRemoval boardState ⟨"gA", 3, "a1"⟩) "gB", resolveWeek t = 5) ∧
      ∃ s1 pre last post,
        handleTacticMove boardState ⟨"gA", 3, "a1"⟩ ⟨"gB", 5, none⟩ = .returned s1 ∧
        tacticsOf (afterRemoval boardState ⟨"gA", 3, "a1"⟩) "gB" = pre ++ last :: post ∧
        resolveWeek last = 5 ∧
        (∀ t ∈ post, resolveWeek t ≠ 5) ∧
        tacticsOf s1 "gB" = pre ++ last ::
          { id := "a1", title := "Draft PRFAQ", completed := false, week := some 5 } :: post :=
  ⟨by decide,
    move_onto_week_after_last boardState ⟨"gA", 3, "a1"⟩ ⟨"gB", 5, none⟩ boardGoalA boardGoalB
      { id := "a1", title := "Draft PRFAQ", completed := false, week := some 3 }
      (by decide) (by decide) (by decide) rfl (by decide)⟩

theorem move_onto_empty_week_witness :
    (∀ t ∈ boardGoalB.tactics, resolveWeek t ≠ 9) ∧
      ∃ s1, handleTacticMove boardState ⟨"gA", 3, "a1"⟩ ⟨"gB", 9, none⟩ = .returned s1 ∧
        tacticsOf s1 "gB" =
          tacticsOf (afterRemoval boardState ⟨"gA", 3, "a1"⟩) "gB" ++
            [{ id := "a1", title := "Draft PRFAQ", completed := false, week := some 9 }] ∧
        (tacticsOf s1 "gB").filter (fun t => resolveWeek t == 9) =
          [{ id := "a1", title := "Draft PRFAQ", completed := false, week := some 9 }] :=
  ⟨by decide,
    move_onto_empty_week boardState ⟨"gA", 3, "a1"⟩ ⟨"gB", 9, none⟩ boardGoalA boardGoalB
      { id := "a1", title := "Draft PRFAQ", completed := false, week := some 3 }
      (by decide) (by decide) (by decide) rfl (by decide) (by decide)⟩

theorem move_missing_source_witness :
    (∀ g ∈ boardState.goals, g.id ≠ "gZ") ∧
      handleTacticMove boardState ⟨"gZ", 3, "a1"⟩ ⟨"gB", 5, none⟩ = .returned boardState :=
  ⟨by decide,
    move_missing_source boardState ⟨"gZ", 3, "a1"⟩ ⟨"gB", 5, none⟩ (Or.inl (by decide))⟩

/-! ## String-keyed objects: lemmas -/

theorem getKey_setKey_same {β : Type} (k : String) (v : β) (l : List (String × β)) :
    getKey k (setKey k v l) = some v := by
  induction l with
  | nil => simp [setKey, getKey]
  | cons e rest ih =>
    obtain ⟨k1, v1⟩ := e
    by_cases h : (k1 == k) = true
    · simp [setKey, getKey, h]
    · simp [setKey, getKey, h, ih]

theorem getKey_setKey_ne {β : Type} (k other : String) (v : β) (l : List (String × β))
    (hne : other ≠ k) : getKey other (setKey k v l) = getKey other l := by
  induction l with
  | nil =>
    have h : ¬ (k == other) = true := by simpa using (Ne.symm hne)
    simp [setKey, getKey, h]
  | cons e rest ih =>
    obtain ⟨k1, v1⟩ := e
    by_cases h : (k1 == k) = true
    · have hk : k1 = k := by simpa using h
      have h2 : ¬ (k1 == other) = true := by rw [hk]; simpa using (Ne.symm hne)
      simp [setKey, getKey, h, h2]
    · by_cases h2 : (k1 == other) = true
      · simp [setKey, getKey, h, h2]
      · simp [setKey, getKey, h, h2, ih]

theorem keys_setKey {β : Type} (k : String) (v : β) (l : List (String × β)) :
    (setKey k v l).map (fun e => e.1) =
      if k ∈ l.map (fun e => e.1) then l.map (fun e => e.1)
      else l.map (fun e => e.1) ++ [k] := by
  induction l with
  | nil => simp [setKey]
  | cons e rest ih =>
    obtain ⟨k1, v1⟩ := e
    by_cases h : (k1 == k) = true
    · have hk : k1 = k := by simpa using h
      simp [setKey, h, hk]
    · have hk : ¬ k1 = k := by simpa using h
      have hk2 : ¬ k = k1 := fun e => hk e.symm
      have hstep : setKey k v ((k1, v1) :: rest) = (k1, v1) :: setKey k v rest := by
        simp [setKey, h]
      rw [hstep, List.map_cons, ih]
      by_cases hm : k ∈ rest.map (fun e => e.1)
      · simp [hm]
      · simp [hm, hk2]

theorem nodup_keys_setKey {β : Type} (k : String) (v : β) (l : List (String × β))
    (h : (l.map (fun e => e.1)).Nodup) : ((setKey k v l).map (fun e => e.1)).Nodup := by
  rw [keys_setKey]
  split_ifs with hk
  · exact h
  · rw [List.nodup_append]
    refine ⟨h, List.nodup_singleton k, ?_⟩
    intro a ha hb
    rw [List.mem_singleton] at hb
    exact hk (hb ▸ ha)

/-! ## Time blocks: lemmas -/

theorem getKey_assignTag_same (id next : String) (mw : List (String × String))
    (hown : id ≠ "__proto__" ∨ getKey id mw ≠ none) :
    getKey id (assignTag id next mw) = some next := by
  unfold assignTag
  cases hget : getKey id mw with
  | none =>
    rcases hown with h | h
    · simp only [h, if_false]
      exact getKey_setKey_same _ _ _
    · exact absurd hget h
  | some v => exact getKey_setKey_same _ _ _

theorem getKey_assignTag_ne (id other next : String) (mw : List (String × String))
    (hne : other ≠ id) : getKey other (assignTag id next mw) = getKey other mw := by
  unfold assignTag
  cases getKey id mw with
  | none =>
    simp only
    split_ifs
    · rfl
    · exact getKey_setKey_ne _ _ _ _ hne
  | some v => exact getKey_setKey_ne _ _ _ _ hne

theorem nodup_keys_assignTag (id next : String) (mw : List (String × String))
    (h : (mw.map (fun e => e.1)).Nodup) : ((assignTag id next mw).map (fun e => e.1)).Nodup := by
  unfold assignTag
  cases getKey id mw with
  | none =>
    simp only
    split_ifs
    · exact h
    · exact nodup_keys_setKey _ _ _ h
  | some v => exact nodup_keys_setKey _ _ _ h

theorem slotTag_toggle_same (s : AppState) (id : String)
    (hown : id ≠ "__proto__" ∨ slotTag s id ≠ none) :
    slotTag (toggleTimeBlock s id) id = some (nextBlockType (slotTag s id)) := by
  unfold slotTag toggleTimeBlock at *
  cases hmw : s.modelWeek with
  | none =>
    rw [hmw] at hown
    simp only
    rw [getKey_assignTag_same]
    · rfl
    · rcases hown with h | h
      · exact Or.inl h
      · exact absurd rfl h
  | some mw =>
    rw [hmw] at hown
    simp only
    rw [getKey_assignTag_same _ _ _ hown]

theorem slotTag_toggle_other (s : AppState) (id other : String) (hne : other ≠ id) :
    slotTag (toggleTimeBlock s id) other = slotTag s other := by
  unfold slotTag toggleTimeBlock
  cases s.modelWeek with
  | none =>
    simp only [getKey_assignTag_ne _ _ _ _ hne]
    rfl
  | some mw => simp [getKey_assignTag_ne _ _ _ _ hne]

theorem plannerSlotIds_ne_proto : ∀ id ∈ plannerSlotIds, id ≠ "__proto__" := by
  decide

/-- On an object without an own property `__proto__` the call with that id writes nothing:
the slot has no tag afterwards either. -/
theorem toggleTimeBlock_proto_dropped (s : AppState) (h : slotTag s "__proto__" = none) :
    slotTag (toggleTimeBlock s "__proto__") "__proto__" = none := by
  unfold slotTag toggleTimeBlock assignTag at *
  cases hmw : s.modelWeek with
  | none => rfl
  | some mw =>
    rw [hmw] at h
    simp only at h ⊢
    rw [h]
    simpa using h

theorem nextBlockType_unknown (tag : String) (h : tag ∉ blockTypes) :
    nextBlockType (some tag) = "plan" := by
  unfold nextBlockType
  by_cases he : tag = ""
  · subst he
    decide
  · simp only [he, if_false]
    have h1 : tag ≠ "empty" := fun e => h (by rw [e]; decide)
    have h2 : tag ≠ "plan" := fun e => h (by rw [e]; decide)
    have h3 : tag ≠ "action" := fun e => h (by rw [e]; decide)
    have h4 : tag ≠ "breakout" := fun e => h (by rw [e]; decide)
    have hidx : findIndex (fun t => t == tag) blockTypes = none := by
      apply findIndex_eq_none
      intro a ha
      simp only [blockTypes, List.mem_cons, List.mem_singleton, List.not_mem_nil, or_false] at ha
      rcases ha with rfl | rfl | rfl | rfl
      · simpa using (Ne.symm h1)
      · simpa using (Ne.symm h2)
      · simpa using (Ne.symm h3)
      · simpa using (Ne.symm h4)
    rw [hidx]
    decide

/-! ## Time blocks -/

/-- C11: on a slot that `modelWeek` lacks or tags `empty`, four successive calls of
`toggleTimeBlock` store the tags `plan`, `action`, `breakout`, `empty` in that order, and
after each call every other slot has the tag it had in the beginning. The slot id is any
string but `__proto__`, which no slot of the planner grid has as its id. -/
theorem toggleTimeBlock_cycle (s : AppState) (id : String)
    (hid : id ≠ "__proto__")
    (h : slotTag s id = none ∨ slotTag s id = some "empty") :
    slotTag (toggleTimeBlock s id) id = some "plan" ∧
      slotTag (toggleTimeBlock (toggleTimeBlock s id) id) id = some "action" ∧
      slotTag (toggleTimeBlock (toggleTimeBlock (toggleTimeBlock s id) id) id) id =
        some "breakout" ∧
      slotTag (toggleTimeBlock (toggleTimeBlock (toggleTimeBlock (toggleTimeBlock s id) id) id)
        id) id = some "empty" ∧
      ∀ other, other ≠ id →
        slotTag (toggleTimeBlock s id) other = slotTag s other ∧
        slotTag (toggleTimeBlock (toggleTimeBlock s id) id) other = slotTag s other ∧
        slotTag (toggleTimeBlock (toggleTimeBlock (toggleTimeBlock s id) id) id) other =
          slotTag s other ∧
        slotTag (toggleTimeBlock (toggleTimeBlock (toggleTimeBlock (toggleTimeBlock s id) id)
          id) id) other = slotTag s other := by
  have h1 : slotTag (toggleTimeBlock s id) id = some "plan" := by
    rw [slotTag_toggle_same _ _ (Or.inl hid)]
    rcases h with h | h <;> rw [h] <;> decide
  have h2 : slotTag (toggleTimeBlock (toggleTimeBlock s id) id) id = some "action" := by
    rw [slotTag_toggle_same _ _ (Or.inl hid), h1]; decide
  have h3 : slotTag (toggleTimeBlock (toggleTimeBlock (toggleTimeBlock s id) id) id) id =
      some "breakout" := by
    rw [slotTag_toggle_same _ _ (Or.inl hid), h2]; decide
  have h4 : slotTag (toggleTimeBlock (toggleTimeBlock (toggleTimeBlock (toggleTimeBlock s id)
      id) id) id) id = some "empty" := by
    rw [slotTag_toggle_same _ _ (Or.inl hid), h3]; decide
  refine ⟨h1, h2, h3, h4, ?_⟩
  intro other hne
  simp only [slotTag_toggle_other _ _ _ hne, and_self]

theorem toggleTimeBlock_cycle_witness :
    "d0-h3" ∈ plannerSlotIds ∧
      "d0-h3" ≠ "__proto__" ∧
      slotTag defaultState "d0-h3" = none ∧
      slotTag (toggleTimeBlock defaultState "d0-h3") "d0-h3" = some "plan" ∧
      slotTag (toggleTimeBlock (toggleTimeBlock defaultState "d0-h3") "d0-h3") "d0-h3" =
        some "action" :=
  ⟨by decide, by decide, rfl,
    (toggleTimeBlock_cycle defaultState "d0-h3" (by decide) (Or.inl rfl)).1,
    (toggleTimeBlock_cycle defaultState "d0-h3" (by decide) (Or.inl rfl)).2.1⟩

/-- C13: a slot whose stored tag is none of `empty`, `plan`, `action`, `breakout` (such as
the legacy tags `strategic` and `buffer`) is tagged `plan` after one call of
`toggleTimeBlock`, which returns normally. -/
theorem toggleTimeBlock_unknown_tag (s : AppState) (id tag : String)
    (htag : slotTag s id = some tag) (hunknown : tag ∉ blockTypes) :
    slotTag (toggleTimeBlock s id) id = some "plan" := by
  rw [slotTag_toggle_same s id (Or.inr (by rw [htag]; exact Option.some_ne_none tag)), htag,
    nextBlockType_unknown tag hunknown]

theorem toggleTimeBlock_unknown_tag_witness :
    slotTag { defaultState with modelWeek := some [("d0-h3", "strategic"), ("d1-h4", "buffer")] }
        "d1-h4" = some "buffer" ∧
      "buffer" ∉ blockTypes ∧
      slotTag (toggleTimeBlock
        { defaultState with modelWeek := some [("d0-h3", "strategic"), ("d1-h4", "buffer")] }
        "d1-h4") "d1-h4" = some "plan" :=
  ⟨rfl, by decide, toggleTimeBlock_unknown_tag _ "d1-h4" "buffer" rfl (by decide)⟩

theorem slotIds_toggle_nodup (s : AppState) (id : String) (h : (slotIds s).Nodup) :
    (slotIds (toggleTimeBlock s id)).Nodup := by
  unfold slotIds toggleTimeBlock at *
  cases hmw : s.modelWeek with
  | none => exact nodup_keys_assignTag _ _ [] List.nodup_nil
  | some mw =>
    rw [hmw] at h
    exact nodup_keys_assignTag _ _ _ h

theorem slotIds_foldl_toggle_nodup (ids : List String) (s : AppState)
    (h : (slotIds s).Nodup) : (slotIds (ids.foldl toggleTimeBlock s)).Nodup := by
  induction ids generalizing s with
  | nil => exact h
  | cons id ids ih => exact ih _ (slotIds_toggle_nodup s id h)

theorem count_values_eq_count_keys (tag : String) (mw : List (String × String))
    (h : (mw.map (fun e => e.1)).Nodup) :
    ((mw.map (fun e => e.2)).filter (fun v => v == tag)).length =
      ((mw.map (fun e => e.1)).filter (fun k => getKey k mw == some tag)).length := by
  induction mw with
  | nil => rfl
  | cons e rest ih =>
    obtain ⟨k, v⟩ := e
    rw [List.map_cons, List.nodup_cons] at h
    have hrest : (rest.map (fun e => e.1)).filter (fun k1 => getKey k1 ((k, v) :: rest) == some tag) =
        (rest.map (fun e => e.1)).filter (fun k1 => getKey k1 rest == some tag) := by
      apply List.filter_congr
      intro k1 hk1
      have hne : ¬ (k == k1) = true := by
        intro hk
        have : k = k1 := by simpa using hk
        exact h.1 (this ▸ hk1)
      simp [getKey, hne]
    simp only [List.map_cons, List.filter_cons, hrest]
    have hhead : getKey k ((k, v) :: rest) = some v := by simp [getKey]
    rw [hhead]
    by_cases hv : v = tag
    · simp [hv, ih h.2]
    · have hv2 : ¬ (some v == some tag) = true := by simpa using hv
      simp [hv, ih h.2]

/-- C12: `calculateStrategicHours` is 0 without `modelWeek` and otherwise the number of
entries whose tag is exactly `action`, so entries tagged `strategic` are not among those
counted; after any sequence of `toggleTimeBlock` calls it is the number of slots whose
tag is `action`. The entries of `modelWeek` have pairwise distinct keys, as the keys of an
object do. -/
theorem calculateStrategicHours_counts (s : AppState) (ids : List String)
    (hkeys : (slotIds s).Nodup) :
    (s.modelWeek = none → calculateStrategicHours s = 0) ∧
      (∀ mw, s.modelWeek = some mw →
        calculateStrategicHours s = mw.countP (fun e => e.2 = "action") ∧
        calculateStrategicHours s + mw.countP (fun e => e.2 = "strategic") ≤ mw.length) ∧
      calculateStrategicHours (ids.foldl toggleTimeBlock s) =
        ((slotIds (ids.foldl toggleTimeBlock s)).filter
          (fun k => slotTag (ids.foldl toggleTimeBlock s) k == some "action")).length := by
  refine ⟨?_, ?_, ?_⟩
  · intro h
    unfold calculateStrategicHours
    rw [h]
  · intro mw h
    have hcount : calculateStrategicHours s = mw.countP (fun e => e.2 = "action") := by
      unfold calculateStrategicHours
      rw [h]
      simp only
      rw [List.filter_map, List.length_map, List.countP_eq_length_filter]
      congr 1
    refine ⟨hcount, ?_⟩
    rw [hcount]
    have hsum := List.length_eq_countP_add_countP (fun e : String × String => decide (e.2 = "action")) mw
    have hle : mw.countP (fun e => e.2 = "strategic") ≤
        mw.countP (fun e => ¬ (decide (e.2 = "action")) = true) := by
      apply List.countP_mono_left
      intro e _ he
      have he1 : e.2 = "strategic" := by simpa using he
      simp [he1]
    omega
  · have hnd := slotIds_foldl_toggle_nodup ids s hkeys
    generalize ids.foldl toggleTimeBlock s = s1 at hnd ⊢
    unfold calculateStrategicHours slotIds slotTag at *
    cases hmw : s1.modelWeek with
    | none => rfl
    | some mw =>
      rw [hmw] at hnd
      exact count_values_eq_count_keys "action" mw hnd

theorem calculateStrategicHours_counts_witness :
    (slotIds { defaultState with
        modelWeek := some [("d0-h3", "strategic"), ("d1-h4", "action")] }).Nodup ∧
      calculateStrategicHours
        (["d0-h3", "d2-h0", "d2-h0", "d1-h4"].foldl toggleTimeBlock
          { defaultState with
            modelWeek := some [("d0-h3", "strategic"), ("d1-h4", "action")] }) =
        ((slotIds (["d0-h3", "d2-h0", "d2-h0", "d1-h4"].foldl toggleTimeBlock
          { defaultState with
            modelWeek := some [("d0-h3", "strategic"), ("d1-h4", "action")] })).filter
          (fun k => slotTag (["d0-h3", "d2-h0", "d2-h0", "d1-h4"].foldl toggleTimeBlock
            { defaultState with
              modelWeek := some [("d0-h3", "strategic"), ("d1-h4", "action")] }) k ==
            some "action")).length :=
  ⟨by decide,
    (calculateStrategicHours_counts _ ["d0-h3", "d2-h0", "d2-h0", "d1-h4"] (by decide)).2.2⟩

/-! ## The week archive: lemmas -/

theorem archiveEntry_nil (e : WeekSnapshot) : archiveEntry e [] = [e] := rfl

theorem archiveEntry_cons (e x : WeekSnapshot) (xs : List WeekSnapshot) :
    archiveEntry e (x :: xs) =
      if x.week == e.week then e :: xs else x :: archiveEntry e xs := by
  unfold archiveEntry
  by_cases h : (x.week == e.week) = true
  · simp [findIndex, h]
  · simp only [findIndex, h]
    cases findIndex (fun h => h.week == e.week) xs <;> simp

theorem find?_archiveEntry (e : WeekSnapshot) (hs : List WeekSnapshot) :
    (archiveEntry e hs).find? (fun h => h.week == e.week) = some e := by
  induction hs with
  | nil => simp [archiveEntry_nil]
  | cons x xs ih =>
    rw [archiveEntry_cons]
    by_cases h : (x.week == e.week) = true
    · simp [h]
    · simp [h, ih]

theorem filter_ne_archiveEntry (e : WeekSnapshot) (hs : List WeekSnapshot) :
    (archiveEntry e hs).filter (fun h => h.week != e.week) =
      hs.filter (fun h => h.week != e.week) := by
  induction hs with
  | nil => simp [archiveEntry_nil]
  | cons x xs ih =>
    rw [archiveEntry_cons]
    by_cases h : (x.week == e.week) = true
    · have hx : x.week = e.week := by simpa using h
      simp [h, hx]
    · have hx : ¬ x.week = e.week := by simpa using h
      simp [h, hx, ih]

theorem weeks_archiveEntry (e : WeekSnapshot) (hs : List WeekSnapshot) :
    (archiveEntry e hs).map (fun h => h.week) =
      if e.week ∈ hs.map (fun h => h.week) then hs.map (fun h => h.week)
      else hs.map (fun h => h.week) ++ [e.week] := by
  induction hs with
  | nil => simp [archiveEntry_nil]
  | cons x xs ih =>
    rw [archiveEntry_cons]
    by_cases h : (x.week == e.week) = true
    · have hx : x.week = e.week := by simpa using h
      simp [h, hx]
    · have hx : ¬ e.week = x.week := by
        intro he
        exact h (by simp [he])
      have hb : (x.week == e.week) = false := by simpa using h
      simp only [hb, Bool.false_eq_true, if_false, List.map_cons, List.mem_cons, hx, false_or]
      rw [ih]
      by_cases hm : e.week ∈ xs.map (fun h => h.week)
      · simp [hm]
      · simp [hm]

theorem nodup_weeks_archiveEntry (e : WeekSnapshot) (hs : List WeekSnapshot)
    (h : (hs.map (fun h => h.week)).Nodup) :
    ((archiveEntry e hs).map (fun h => h.week)).Nodup := by
  rw [weeks_archiveEntry]
  split_ifs with hk
  · exact h
  · rw [List.nodup_append]
    refine ⟨h, List.nodup_singleton _, ?_⟩
    intro a ha hb
    rw [List.mem_singleton] at hb
    exact hk (hb ▸ ha)

theorem filter_eq_archiveEntry (e : WeekSnapshot) (hs : List WeekSnapshot)
    (h : (hs.map (fun h => h.week)).Nodup) :
    (archiveEntry e hs).filter (fun h => h.week == e.week) = [e] := by
  induction hs with
  | nil => simp [archiveEntry_nil]
  | cons x xs ih =>
    rw [List.map_cons, List.nodup_cons] at h
    rw [archiveEntry_cons]
    by_cases hx : (x.week == e.week) = true
    · have hxe : x.week = e.week := by simpa using hx
      have hnone : xs.filter (fun h => h.week == e.week) = [] := by
        rw [List.filter_eq_nil_iff]
        intro y hy hyw
        have hyw1 : y.week = e.week := by simpa using hyw
        exact h.1 (by rw [hxe, ← hyw1]; exact List.mem_map_of_mem _ hy)
      simp [hx, hnone]
    · simp [hx, ih h.2]

theorem iterate_completeWeek_le (n : Nat) (s : AppState) (h : s.currentWeek ≤ 13) :
    (Nat.iterate completeWeek n s).currentWeek ≤ 13 := by
  induction n generalizing s with
  | zero => exact h
  | succ n ih =>
    rw [Function.iterate_succ_apply]
    apply ih
    unfold completeWeek
    simp only
    split_ifs <;> omega

theorem iterate_completeWeek_thirteen (n : Nat) (s : AppState) (h : s.currentWeek = 13) :
    (Nat.iterate completeWeek n s).currentWeek = 13 := by
  induction n generalizing s with
  | zero => exact h
  | succ n ih =>
    rw [Function.iterate_succ_apply]
    apply ih
    unfold completeWeek
    simp [h]

/-! ## Completing a week -/

/-- C14: from a `currentWeek` of at most 13 the confirmed `completeWeek` mutation sets
`currentWeek` to `min (currentWeek + 1) 13`; after any number of such mutations
`currentWeek` is still at most 13, and from 13 it stays 13. -/
theorem completeWeek_currentWeek (s : AppState) (n : Nat) (h : s.currentWeek ≤ 13) :
    (completeWeek s).currentWeek = min (s.currentWeek + 1) 13 ∧
      (Nat.iterate completeWeek n s).currentWeek ≤ 13 ∧
      (s.currentWeek = 13 → (Nat.iterate completeWeek n s).currentWeek = 13) := by
  refine ⟨?_, iterate_completeWeek_le n s h, iterate_completeWeek_thirteen n s⟩
  unfold completeWeek
  simp only
  split_ifs <;> omega

theorem completeWeek_currentWeek_witness :
    defaultState.currentWeek ≤ 13 ∧
      (completeWeek defaultState).currentWeek = min (defaultState.currentWeek + 1) 13 ∧
      (Nat.iterate completeWeek 20 defaultState).currentWeek ≤ 13 ∧
      (defaultState.currentWeek = 13 →
        (Nat.iterate completeWeek 20 defaultState).currentWeek = 13) :=
  ⟨by decide, completeWeek_currentWeek defaultState 20 (by decide)⟩

/-- C15: when `wesHistory` has at most one entry per week, completing week `w` and then
completing the same week `w` again, with nothing else changed, leaves exactly one entry
of week `w`; the entry built the second time equals the one built the first time; the
entries of the other weeks are those of the beginning; and the history still has at most
one entry per week. The mutation itself advances `currentWeek`, so the second run is
stated on the state after the first run with `currentWeek` back at `w` (which is what a
reload gives, `save()` being called before the week advances); in week 13 that state is
the state after the first run itself. -/
theorem completeWeek_twice_same_week (s : AppState)
    (hdistinct : (s.metrics.wesHistory.map (fun h => h.week)).Nodup) :
    (completeWeek { completeWeek s with currentWeek := s.currentWeek }).metrics.wesHistory.filter
          (fun h => h.week == s.currentWeek) = [weekEntry s] ∧
      weekEntry { completeWeek s with currentWeek := s.currentWeek } = weekEntry s ∧
      (completeWeek { completeWeek s with currentWeek := s.currentWeek }).metrics.wesHistory.filter
          (fun h => h.week != s.currentWeek) =
        s.metrics.wesHistory.filter (fun h => h.week != s.currentWeek) ∧
      ((completeWeek { completeWeek s with currentWeek := s.currentWeek }).metrics.wesHistory.map
          (fun h => h.week)).Nodup ∧
      (s.currentWeek = 13 →
        { completeWeek s with currentWeek := s.currentWeek } = completeWeek s) := by
  have hentry : weekEntry { completeWeek s with currentWeek := s.currentWeek } = weekEntry s :=
    rfl
  have hhist : (completeWeek { completeWeek s with currentWeek := s.currentWeek }).metrics.wesHistory =
      archiveEntry (weekEntry s) (archiveEntry (weekEntry s) s.metrics.wesHistory) := rfl
  have hweek : (weekEntry s).week = s.currentWeek := rfl
  have hnd1 := nodup_weeks_archiveEntry (weekEntry s) _ hdistinct
  refine ⟨?_, hentry, ?_, ?_, ?_⟩
  · rw [hhist, ← hweek]
    exact filter_eq_archiveEntry _ _ hnd1
  · rw [hhist, ← hweek, filter_ne_archiveEntry, filter_ne_archiveEntry]
  · rw [hhist]
    exact nodup_weeks_archiveEntry _ _ hnd1
  · intro h13
    unfold completeWeek
    simp [h13]

theorem completeWeek_twice_same_week_witness :
    (defaultState.metrics.wesHistory.map (fun h => h.week)).Nodup ∧
      (completeWeek { completeWeek defaultState with
          currentWeek := defaultState.currentWeek }).metrics.wesHistory.filter
          (fun h => h.week == defaultState.currentWeek) = [weekEntry defaultState] :=
  ⟨by decide, (completeWeek_twice_same_week defaultState (by decide)).1⟩

theorem metricKey_lag (week : Nat) :
    metricKey week "lag" = "week" ++ toString week ++ "_lag" := by
  unfold metricKey
  rw [String.append_assoc]
  rfl

theorem metricKey_lead (week : Nat) :
    metricKey week "lead" = "week" ++ toString week ++ "_lead" := by
  unfold metricKey
  rw [String.append_assoc]
  rfl

theorem lagKey_ne_leadKey (week : Nat) :
    "week" ++ toString week ++ "_lag" ≠ "week" ++ toString week ++ "_lead" := by
  intro h
  have hdata := congrArg String.data h
  simp only [String.data_append, List.append_cancel_left_eq] at hdata
  exact absurd hdata (by decide)

/-- C16: the snapshot found for the completed week in `wesHistory` after the confirmed
`completeWeek` mutation has the `currentWeek` of the state before the call as its week,
`calculateWES()` and `calculateStrategicHours()` of that state as score and strategic
hours, and as lag and lead the values of the metric properties named `week`, the decimal
week number, and `_lag` or `_lead`. These are two different properties: a value written by
`updateMetric` for one of them is the one found in the snapshot and leaves the other as
it was. In a state of week 2 holding `week1_lag`, `week2_lag` and `week2_lead`, the
snapshot takes the two values of week 2. -/
theorem completeWeek_snapshot (s : AppState) :
    (∃ e, (completeWeek s).metrics.wesHistory.find? (fun h => h.week == s.currentWeek) =
          some e ∧
        e.week = s.currentWeek ∧
        e.score = calculateWES s ∧
        e.strategicHours = calculateStrategicHours s ∧
        e.lag = getKey ("week" ++ toString s.currentWeek ++ "_lag") s.metrics.fields ∧
        e.lead = getKey ("week" ++ toString s.currentWeek ++ "_lead") s.metrics.fields) ∧
      "week" ++ toString s.currentWeek ++ "_lag" ≠
        "week" ++ toString s.currentWeek ++ "_lead" ∧
      (∀ value,
        (updateMetric s "lag" value).metrics.fields =
          setKey ("week" ++ toString s.currentWeek ++ "_lag") value s.metrics.fields ∧
        (updateMetric s "lead" value).metrics.fields =
          setKey ("week" ++ toString s.currentWeek ++ "_lead") value s.metrics.fields ∧
        (weekEntry (updateMetric s "lag" value)).lag = some value ∧
        (weekEntry (updateMetric s "lag" value)).lead = (weekEntry s).lead ∧
        (weekEntry (updateMetric s "lead" value)).lead = some value ∧
        (weekEntry (updateMetric s "lead" value)).lag = (weekEntry s).lag) ∧
      (completeWeek
          { defaultState with
            currentWeek := 2
            metrics :=
              { wesHistory := []
                fields := [("week1_lag", "Revenue"), ("week2_lag", "Signups"),
                  ("week2_lead", "Calls made")] } }).metrics.wesHistory =
        [{ week := 2, score := 0, strategicHours := 0, lag := some "Signups",
           lead := some "Calls made" }] := by
  have hne := lagKey_ne_leadKey s.currentWeek
  refine ⟨⟨weekEntry s, ?_, rfl, rfl, rfl, ?_, ?_⟩, hne, ?_, by decide⟩
  · exact find?_archiveEntry (weekEntry s) s.metrics.wesHistory
  · unfold weekEntry
    rw [metricKey_lag]
  · unfold weekEntry
    rw [metricKey_lead]
  · intro value
    refine ⟨?_, ?_, ?_, ?_, ?_, ?_⟩
    · unfold updateMetric
      rw [metricKey_lag]
    · unfold updateMetric
      rw [metricKey_lead]
    · exact getKey_setKey_same _ _ _
    · unfold weekEntry updateMetric
      simp only
      rw [metricKey_lag, metricKey_lead]
      exact getKey_setKey_ne _ _ _ _ (Ne.symm hne)
    · exact getKey_setKey_same _ _ _
    · unfold weekEntry updateMetric
      simp only
      rw [metricKey_lag, metricKey_lead]
      exact getKey_setKey_ne _ _ _ _ hne

/-! ## Persistence -/

/-- C17: when the stored item parses to an object, `load()` gives every top-level key the
blob has the blob's value and leaves every other key as it was (the default state's value,
`load()` being run on the state the constructor built); a state saved with a successful
write and loaded onto the default state comes back field for field. -/
theorem load_merges_blob (st : Store) (parsed : Blob) (saved : Store)
    (hstored : st.storage = some (.json parsed)) :
    keyMerged parsed.version st.state.version (load st).state.version ∧
      keyMerged parsed.onboardingComplete st.state.onboardingComplete
        (load st).state.onboardingComplete ∧
      keyMerged parsed.currentWeek st.state.currentWeek (load st).state.currentWeek ∧
      keyMerged parsed.vision st.state.vision (load st).state.vision ∧
      keyMerged parsed.goals st.state.goals (load st).state.goals ∧
      keyMerged parsed.metrics st.state.metrics (load st).state.metrics ∧
      keyMerged parsed.emotionalHistory st.state.emotionalHistory
        (load st).state.emotionalHistory ∧
      keyMerged parsed.healthLogs st.state.healthLogs (load st).state.healthLogs ∧
      keyMerged parsed.openWeeks st.state.openWeeks (load st).state.openWeeks ∧
      keyMergedOptional parsed.dueDates st.state.dueDates (load st).state.dueDates ∧
      keyMergedOptional parsed.modelWeek st.state.modelWeek (load st).state.modelWeek ∧
      (load { state := defaultState, storage := (save saved true).storage }).state =
        saved.state := by
  have hload : (load st).state = mergeBlob st.state parsed := by
    unfold load
    rw [hstored]
  rw [hload]
  refine ⟨?_, ?_, ?_, ?_, ?_, ?_, ?_, ?_, ?_, ?_, ?_, ?_⟩
  · unfold keyMerged mergeBlob; cases parsed.version <;> rfl
  · unfold keyMerged mergeBlob; cases parsed.onboardingComplete <;> rfl
  · unfold keyMerged mergeBlob; cases parsed.currentWeek <;> rfl
  · unfold keyMerged mergeBlob; cases parsed.vision <;> rfl
  · unfold keyMerged mergeBlob; cases parsed.goals <;> rfl
  · unfold keyMerged mergeBlob; cases parsed.metrics <;> rfl
  · unfold keyMerged mergeBlob; cases parsed.emotionalHistory <;> rfl
  · unfold keyMerged mergeBlob; cases parsed.healthLogs <;> rfl
  · unfold keyMerged mergeBlob; cases parsed.openWeeks <;> rfl
  · unfold keyMergedOptional mergeBlob; cases parsed.dueDates <;> rfl
  · unfold keyMergedOptional mergeBlob; cases parsed.modelWeek <;> rfl
  · obtain ⟨s0, stor⟩ := saved
    obtain ⟨v, o, c, vi, g, m, e, h, ow, dd, mw⟩ := s0
    cases dd <;> cases mw <;> rfl

theorem load_merges_blob_witness :
    (load { state := defaultState,
            storage := some (.json { serialize boardState with goals := none }) }).state.goals =
        defaultState.goals ∧
      (load { state := defaultState, storage := (save ⟨boardState, none⟩ true).storage }).state =
        boardState :=
  ⟨(load_merges_blob
      { state := defaultState,
        storage := some (.json { serialize boardState with goals := none }) }
      { serialize boardState with goals := none } ⟨boardState, none⟩ rfl).2.2.2.2.1,
    (load_merges_blob
      { state := defaultState,
        storage := some (.json { serialize boardState with goals := none }) }
      { serialize boardState with goals := none } ⟨boardState, none⟩ rfl).2.2.2.2.2.2.2.2.2.2.2⟩

/-! ## Creation with a title -/

theorem mem_flatMap_set (gs : List Goal) (i : Nat) (g1 : Goal) (t : Tactic)
    (h : t ∈ (gs.set i g1).flatMap (fun g => g.tactics)) :
    t ∈ gs.flatMap (fun g => g.tactics) ∨ t ∈ g1.tactics := by
  obtain ⟨g, hg, ht⟩ := List.mem_flatMap.mp h
  rcases List.mem_or_eq_of_mem_set hg with hmem | heq
  · exact Or.inl (List.mem_flatMap.mpr ⟨g, hmem, ht⟩)
  · exact Or.inr (heq ▸ ht)

theorem createTactic_goals (s : AppState) (gi : Nat) (week : Option Nat) (isRecurring : Bool)
    (title : String) (clock : Nat → Nat) (goal : Goal)
    (hgoal : s.goals[gi]? = some goal) (htitle : title ≠ "") :
    ∃ added : List Tactic, (∀ t ∈ added, t.title = title) ∧
      (_createTactic s gi week isRecurring title clock).goals =
        s.goals.set gi { goal with tactics := goal.tactics ++ added } := by
  unfold _createTactic
  simp only [htitle, if_false, hgoal]
  cases isRecurring with
  | false =>
    refine ⟨[{ id := "t" ++ toString (clock 0), title := title, completed := false,
               week := week }], ?_, ?_⟩
    · intro t ht
      rw [List.mem_singleton] at ht
      rw [ht]
    · rcases week with _ | _ | w <;> rfl
  | true =>
    refine ⟨(List.range' 1 12).map (fun w => recurringTactic title (clock w) w), ?_, ?_⟩
    · intro t ht
      obtain ⟨w, -, rfl⟩ := List.mem_map.mp ht
      rfl
    · rw [← foldl_push_eq_append_map]
      rcases week with _ | _ | w <;> rfl

theorem createTactic_titles (s : AppState) (gi : Nat) (week : Option Nat) (isRecurring : Bool)
    (title : String) (clock : Nat → Nat) :
    ∀ t ∈ allTactics (_createTactic s gi week isRecurring title clock),
      t ∈ allTactics s ∨ t.title ≠ "" := by
  intro t ht
  by_cases htitle : title = ""
  · have hsame : _createTactic s gi week isRecurring title clock = s := by
      simp [_createTactic, htitle]
    rw [hsame] at ht
    exact Or.inl ht
  · cases hg : s.goals[gi]? with
    | none =>
      have hsame : _createTactic s gi week isRecurring title clock = s := by
        simp [_createTactic, htitle, hg]
      rw [hsame] at ht
      exact Or.inl ht
    | some goal =>
      obtain ⟨added, hadded, hgoals⟩ :=
        createTactic_goals s gi week isRecurring title clock goal hg htitle
      have hgoal : goal ∈ s.goals := List.getElem?_mem hg
      unfold allTactics at ht ⊢
      rw [hgoals] at ht
      rcases mem_flatMap_set _ _ _ _ ht with hold | hnew
      · exact Or.inl hold
      · rcases List.mem_append.mp hnew with h1 | h1
        · exact Or.inl (List.mem_flatMap.mpr ⟨goal, hgoal, h1⟩)
        · exact Or.inr (by rw [hadded t h1]; exact htitle)

/-- C18: `_createTactic` with an empty title, `addTactic` with an absent or empty title
and the dialog confirmed with an empty text leave the state as it is; and every tactic in
the state after `_createTactic`, `addTactic` or a confirmed dialog either was there before
or has a non-empty title. -/
theorem no_tactic_with_empty_title (s : AppState) (gi : Nat) (goalId : String)
    (week : Option Nat) (isRecurring : Bool) (p : PendingTactic) (title : Option String)
    (val : String) (clock : Nat → Nat) :
    _createTactic s gi week isRecurring "" clock = s ∧
      (addTactic s goalId week isRecurring none clock).1 = s ∧
      (addTactic s goalId week isRecurring (some "") clock).1 = s ∧
      confirmTactic s p "" clock = s ∧
      (∀ t ∈ allTactics (_createTactic s gi week isRecurring val clock),
        t ∈ allTactics s ∨ t.title ≠ "") ∧
      (∀ t ∈ allTactics (addTactic s goalId week isRecurring title clock).1,
        t ∈ allTactics s ∨ t.title ≠ "") ∧
      (∀ t ∈ allTactics (confirmTactic s p val clock), t ∈ allTactics s ∨ t.title ≠ "") := by
  refine ⟨?_, ?_, ?_, ?_, createTactic_titles s gi week isRecurring val clock, ?_, ?_⟩
  · simp [_createTactic]
  · unfold addTactic
    cases findIndex (fun g => g.id == goalId) s.goals <;> rfl
  · unfold addTactic
    cases findIndex (fun g => g.id == goalId) s.goals <;> simp
  · simp [confirmTactic]
  · intro t ht
    unfold addTactic at ht
    cases hfind : findIndex (fun g => g.id == goalId) s.goals with
    | none =>
      rw [hfind] at ht
      exact Or.inl ht
    | some i =>
      rw [hfind] at ht
      cases title with
      | none => exact Or.inl ht
      | some text =>
        simp only at ht
        split_ifs at ht
        · exact Or.inl ht
        · exact createTactic_titles s i week isRecurring text clock t ht
  · intro t ht
    unfold confirmTactic at ht
    split_ifs at ht
    · exact Or.inl ht
    · exact createTactic_titles s p.goal p.week p.isRecurring val clock t ht

/-! ## Lookup misses and goal removal -/

theorem modifyFirst_of_fixed {α : Type} (p : α → Bool) (f : α → α) (l : List α)
    (h : ∀ x ∈ l, p x = true → f x = x) : modifyFirst p f l = l := by
  induction l with
  | nil => rfl
  | cons x xs ih =>
    by_cases hx : p x = true
    · simp [modifyFirst, hx, h x (List.mem_cons_self _ _) hx]
    · simp [modifyFirst, hx, ih (fun y hy => h y (List.mem_cons_of_mem _ hy))]

theorem modifyFirst_goal_fixed (goalId : String) (f : Goal → Goal) (gs : List Goal)
    (h : ∀ g, gs.find? (fun g => g.id == goalId) = some g → f g = g) :
    modifyFirst (fun g => g.id == goalId) f gs = gs := by
  induction gs with
  | nil => rfl
  | cons x xs ih =>
    by_cases hx : (x.id == goalId) = true
    · have hfx : f x = x := h x (by simp [List.find?_cons, hx])
      simp [modifyFirst, hx, hfx]
    · have hrest : ∀ g, xs.find? (fun g => g.id == goalId) = some g → f g = g := by
        intro g hg
        exact h g (by simpa [List.find?_cons, hx] using hg)
      simp [modifyFirst, hx, ih hrest]

/-- C19: `updateGoalTitle` with a goal id that matches no goal, and `updateTacticTitle`,
`toggleTactic` and `removeTactic` with a goal id that matches no goal or a tactic id that
matches no tactic of the goal found, return normally with the state exactly as it was. -/
theorem lookup_miss_is_noop (s : AppState) (goalId tacticId text : String)
    (hmiss : (∀ g ∈ s.goals, g.id ≠ goalId) ∨
      (∀ t ∈ tacticsOf s goalId, t.id ≠ tacticId)) :
    ((∀ g ∈ s.goals, g.id ≠ goalId) → updateGoalTitle s goalId text = s) ∧
      updateTacticTitle s goalId tacticId text = s ∧
      toggleTactic s goalId tacticId = s ∧
      removeTactic s goalId tacticId = s := by
  have hgoalmiss : ∀ f : Goal → Goal, (∀ g ∈ s.goals, g.id ≠ goalId) →
      modifyFirst (fun g => g.id == goalId) f s.goals = s.goals := by
    intro f h
    apply modifyFirst_of_fixed
    intro g hg hid
    exact absurd (by simpa using hid) (h g hg)
  have htactics : ∀ g, s.goals.find? (fun g => g.id == goalId) = some g →
      ∀ t ∈ g.tactics, t.id ≠ tacticId := by
    intro g hg t ht
    rcases hmiss with h | h
    · exact absurd (by simpa using List.find?_some hg) (h g (List.mem_of_find?_eq_some hg))
    · unfold tacticsOf at h
      rw [hg] at h
      exact h t ht
  refine ⟨?_, ?_, ?_, ?_⟩
  · intro h
    unfold updateGoalTitle
    rw [hgoalmiss _ h]
  · unfold updateTacticTitle
    simp only
    rw [modifyFirst_goal_fixed]
    intro g hg
    have hfix : modifyFirst (fun t => t.id == tacticId) (fun t => { t with title := text })
        g.tactics = g.tactics := by
      apply modifyFirst_of_fixed
      intro t ht hid
      exact absurd (by simpa using hid) (htactics g hg t ht)
    rw [hfix]
  · unfold toggleTactic
    simp only
    rw [modifyFirst_goal_fixed]
    intro g hg
    have hfix : modifyFirst (fun t => t.id == tacticId)
        (fun t => { t with completed := !t.completed }) g.tactics = g.tactics := by
      apply modifyFirst_of_fixed
      intro t ht hid
      exact absurd (by simpa using hid) (htactics g hg t ht)
    rw [hfix]
  · unfold removeTactic
    simp only
    rw [modifyFirst_goal_fixed]
    intro g hg
    have hfix : g.tactics.filter (fun t => t.id != tacticId) = g.tactics :=
      List.filter_eq_self.mpr (by intro t ht; simpa using htactics g hg t ht)
    rw [hfix]

theorem lookup_miss_is_noop_witness :
    (∀ t ∈ tacticsOf boardState "gA", t.id ≠ "b9") ∧
      updateTacticTitle boardState "gA" "b9" "Outline" = boardState ∧
      toggleTactic boardState "gA" "b9" = boardState ∧
      removeTactic boardState "gA" "b9" = boardState :=
  ⟨by decide, (lookup_miss_is_noop boardState "gA" "b9" "Outline" (Or.inr (by decide))).2⟩

/-- C20: the confirmed `removeGoal` mutation leaves exactly the goals of another id, in
their order and as they were, so no goal of that id and no tactic outside the remaining
goals is left; `openWeeks` and every other field of the state are unchanged. -/
theorem removeGoal_frame (s : AppState) (id : String) :
    (∀ g ∈ (removeGoal s id).goals, g.id ≠ id) ∧
      (removeGoal s id).goals = s.goals.filter (fun g => g.id != id) ∧
      List.Sublist (removeGoal s id).goals s.goals ∧
      (∀ g ∈ s.goals, g.id ≠ id → g ∈ (removeGoal s id).goals) ∧
      (∀ t ∈ allTactics (removeGoal s id), ∃ g ∈ s.goals, g.id ≠ id ∧ t ∈ g.tactics) ∧
      (removeGoal s id).openWeeks = s.openWeeks ∧
      removeGoal s id = { s with goals := (removeGoal s id).goals } := by
  refine ⟨?_, rfl, List.filter_sublist _, ?_, ?_, rfl, rfl⟩
  · intro g hg
    have := (List.mem_filter.mp hg).2
    simpa using this
  · intro g hg hne
    exact List.mem_filter.mpr ⟨hg, by simpa using hne⟩
  · intro t ht
    obtain ⟨g, hg, htg⟩ := List.mem_flatMap.mp ht
    have hg2 := List.mem_filter.mp hg
    exact ⟨g, hg2.1, by simpa using hg2.2, htg⟩

/-! ## Moves with a missing target -/

theorem handleTacticMove_target_missing (s : AppState) (src : MoveSource) (tgt : MoveTarget)
    (A : Goal) (m : Tactic)
    (hA : s.goals.find? (fun g => g.id == src.goalId) = some A)
    (hm : A.tactics.find? (fun t => t.id == src.tacticId) = some m)
    (hB : ∀ g ∈ s.goals, g.id ≠ tgt.goalId) :
    handleTacticMove s src tgt = .threw (afterRemoval s src) ∧
      totalTactics (afterRemoval s src) + 1 = totalTactics s := by
  have hsrc : src.goalId ≠ tgt.goalId := by
    intro h
    exact hB A (List.mem_of_find?_eq_some hA) (by rw [← h]; simpa using List.find?_some hA)
  have hnone : (afterRemoval s src).goals.find? (fun g => g.id == tgt.goalId) = none := by
    rw [find?_afterRemoval_ne s src tgt.goalId hsrc]
    exact List.find?_eq_none.mpr (by intro g hg; simpa using hB g hg)
  refine ⟨?_, totalTactics_afterRemoval s src A m hA hm⟩
  unfold handleTacticMove
  simp only [hA, hm, hnone]

/-- C22: on `boardState`, moving the tactic `a1` of goal `gA` to the goal id `gZ`, which
matches no goal, ends in a `TypeError`; the state is left as it is after the removal from
the source list, so the tactic `a1` is in no goal's list any more and the number of
tactics has gone down by one. -/
theorem handleTacticMove_missing_target_throws :
    handleTacticMove boardState ⟨"gA", 3, "a1"⟩ ⟨"gZ", 5, none⟩ =
        .threw (afterRemoval boardState ⟨"gA", 3, "a1"⟩) ∧
      (∀ t ∈ allTactics (afterRemoval boardState ⟨"gA", 3, "a1"⟩), t.id ≠ "a1") ∧
      totalTactics (afterRemoval boardState ⟨"gA", 3, "a1"⟩) + 1 = totalTactics boardState := by
  decide

/-- C23: with the source tactic and the target goal found and a target tactic id given,
a target id that no tactic of the target goal's list has after the removal makes
`handleTacticMove` append the moved tactic (its week set to the target week) at the end
of that list; in a goal with pairwise distinct tactic ids this is what happens when a
tactic is dropped onto itself. -/
theorem move_onto_missing_tactic (s : AppState) (src : MoveSource) (tgt : MoveTarget)
    (A B : Goal) (m : Tactic) (tid : String)
    (hA : s.goals.find? (fun g => g.id == src.goalId) = some A)
    (hm : A.tactics.find? (fun t => t.id == src.tacticId) = some m)
    (hB : s.goals.find? (fun g => g.id == tgt.goalId) = some B)
    (htid : tgt.tacticId = some tid) (hne : tid ≠ "") :
    ((∀ t ∈ tacticsOf (afterRemoval s src) tgt.goalId, t.id ≠ tid) →
        ∃ s1, handleTacticMove s src tgt = .returned s1 ∧
          tacticsOf s1 tgt.goalId =
            tacticsOf (afterRemoval s src) tgt.goalId ++ [{ m with week := some tgt.week }]) ∧
      (tgt.goalId = src.goalId → tid = src.tacticId →
        (A.tactics.map (fun t => t.id)).Nodup →
        ∃ s1, handleTacticMove s src tgt = .returned s1 ∧
          tacticsOf s1 src.goalId =
            A.tactics.filter (fun t => t.id != src.tacticId) ++
              [{ m with week := some tgt.week }]) := by
  obtain ⟨s1, hret, htgt, -, -⟩ := handleTacticMove_found s src tgt A B m hA hm hB
  have happend : (∀ t ∈ tacticsOf (afterRemoval s src) tgt.goalId, t.id ≠ tid) →
      tacticsOf s1 tgt.goalId =
        tacticsOf (afterRemoval s src) tgt.goalId ++ [{ m with week := some tgt.week }] := by
    intro hmiss
    rw [htgt]
    unfold insertMoved
    simp only [htid, hne, if_false]
    exact insertBeforeTactic_missing _ _ tid hmiss
  refine ⟨fun hmiss => ⟨s1, hret, happend hmiss⟩, ?_⟩
  intro hsame hself hnd
  have hmid : m.id = src.tacticId := by simpa using List.find?_some hm
  obtain ⟨pre, post, hsplit, hpre, hpost⟩ :=
    nodup_ids_split A.tactics m hnd (List.mem_of_find?_eq_some hm)
  have hrest : tacticsOf (afterRemoval s src) tgt.goalId = pre ++ post := by
    rw [hsame, tacticsOf_afterRemoval_same s src A hA, ← hmid, hsplit]
    exact eraseP_split pre post m hpre
  have hfil : A.tactics.filter (fun t => t.id != src.tacticId) = pre ++ post := by
    rw [← hmid, hsplit]
    exact filter_ne_split pre post m m.id rfl hpre hpost
  have hmiss : ∀ t ∈ tacticsOf (afterRemoval s src) tgt.goalId, t.id ≠ tid := by
    intro t ht
    rw [hrest] at ht
    rw [hself, ← hmid]
    rcases List.mem_append.mp ht with h | h
    · exact hpre t h
    · exact hpost t h
  refine ⟨s1, hret, ?_⟩
  rw [← hsame, happend hmiss, hrest, hfil]

theorem move_onto_missing_tactic_witness :
    (∃ s1, handleTacticMove boardState ⟨"gA", 3, "a1"⟩ ⟨"gB", 5, some "b9"⟩ = .returned s1 ∧
        tacticsOf s1 "gB" =
          tacticsOf (afterRemoval boardState ⟨"gA", 3, "a1"⟩) "gB" ++
            [{ id := "a1", title := "Draft PRFAQ", completed := false, week := some 5 }]) ∧
      ∃ s1, handleTacticMove boardState ⟨"gA", 3, "a1"⟩ ⟨"gA", 3, some "a1"⟩ = .returned s1 ∧
        tacticsOf s1 "gA" =
          boardGoalA.tactics.filter (fun t => t.id != "a1") ++
            [{ id := "a1", title := "Draft PRFAQ", completed := false, week := some 3 }] :=
  ⟨(move_onto_missing_tactic boardState ⟨"gA", 3, "a1"⟩ ⟨"gB", 5, some "b9"⟩
      boardGoalA boardGoalB
      { id := "a1", title := "Draft PRFAQ", completed := false, week := some 3 } "b9"
      (by decide) (by decide) (by decide) rfl (by decide)).1 (by decide),
    (move_onto_missing_tactic boardState ⟨"gA", 3, "a1"⟩ ⟨"gA", 3, some "a1"⟩
      boardGoalA boardGoalA
      { id := "a1", title := "Draft PRFAQ", completed := false, week := some 3 } "a1"
      (by decide) (by decide) (by decide) rfl (by decide)).2 rfl rfl (by decide)⟩

/-! ## Due dates -/

theorem dueDate_miss_is_noop (s : AppState) (dueDates : List DueDate) (id field value : String)
    (hpresent : s.dueDates = some dueDates) (hmiss : ∀ d ∈ dueDates, d.id ≠ id) :
    updateDueDate s id field value = .returned s ∧ removeDueDate s id = .returned s := by
  have h1 : modifyFirst (fun d => d.id == id) (fun d => setDueDateField d field value)
      dueDates = dueDates := by
    apply modifyFirst_of_fixed
    intro d hd hid
    exact absurd (by simpa using hid) (hmiss d hd)
  have h2 : dueDates.filter (fun d => d.id != id) = dueDates :=
    List.filter_eq_self.mpr (by intro d hd; simpa using hmiss d hd)
  have hs : { s with dueDates := some dueDates } = s := by
    cases s
    simp only at hpresent
    simp [hpresent]
  constructor
  · unfold updateDueDate
    simp only [hpresent, h1, hs]
  · unfold removeDueDate
    simp only [hpresent, h2, hs]

/-- C24: in the default state, where `dueDates` is absent, `updateDueDate` and
`removeDueDate` both end in a `TypeError` (with the state untouched), while `addDueDate`
creates the missing array before it pushes. -/
theorem dueDate_methods_throw_without_dueDates :
    defaultState.dueDates = none ∧
      updateDueDate defaultState "ddl_1700000000000" "title" "Tax return" =
        .threw defaultState ∧
      removeDueDate defaultState "ddl_1700000000000" = .threw defaultState ∧
      (addDueDate defaultState 1700000000000).dueDates =
        some [{ id := "ddl_1700000000000", title := "", kind := "", duration := "" }] := by
  decide

/-! ## What is in the storage after a mutation -/

theorem completeWeekStored_state (st : Store) (writeOk : Bool) :
    (completeWeekStored st writeOk).state = completeWeek st.state := by
  unfold completeWeekStored completeWeek save
  cases writeOk <;> rfl

theorem mutateThenSave_storage (mutate : AppState → AppState) (st : Store) :
    (mutateThenSave mutate st true).storage =
      some (.json (serialize (mutateThenSave mutate st true).state)) := rfl

/-- C25: from the default state (week 1) with a successful write, the confirmed
`completeWeek` mutation leaves week 2 in memory and week 1 in the storage: the item
written is the state as it was before the week advanced, not the resulting state, and a
reload gives week 1 back. A mutation followed by `save()`, such as `toggleTactic`, leaves
the resulting state in the storage. -/
theorem completeWeek_storage_lags_behind :
    (completeWeekStored ⟨defaultState, none⟩ true).state.currentWeek = 2 ∧
      (completeWeekStored ⟨defaultState, none⟩ true).storage =
        some (.json (serialize
          { (completeWeekStored ⟨defaultState, none⟩ true).state with currentWeek := 1 })) ∧
      (completeWeekStored ⟨defaultState, none⟩ true).storage ≠
        some (.json (serialize (completeWeekStored ⟨defaultState, none⟩ true).state)) ∧
      (load ⟨defaultState, (completeWeekStored ⟨defaultState, none⟩ true).storage⟩).state.currentWeek =
        1 ∧
      (mutateThenSave (fun s => toggleTactic s "g1" "t1") ⟨defaultState, none⟩ true).storage =
        some (.json (serialize
          (mutateThenSave (fun s => toggleTactic s "g1" "t1") ⟨defaultState, none⟩ true).state)) := by
  decide

/-! ## Uniqueness of ids under creation -/

theorem set_split {α : Type} (l : List α) (i : Nat) (a b : α) (h : l[i]? = some a) :
    ∃ pre post, l = pre ++ a :: post ∧ l.set i b = pre ++ b :: post := by
  induction l generalizing i with
  | nil => simp at h
  | cons x xs ih =>
    cases i with
    | zero =>
      have hx : x = a := by simpa using h
      subst hx
      exact ⟨[], xs, rfl, rfl⟩
    | succ j =>
      have hj : xs[j]? = some a := by simpa using h
      obtain ⟨pre, post, h1, h2⟩ := ih j hj
      exact ⟨x :: pre, post, by rw [h1]; rfl, by rw [List.set_cons_succ, h2]; rfl⟩

theorem createdTacticIds_nodup (isRecurring : Bool) (clock : Nat → Nat) :
    (createdTacticIds isRecurring clock).Nodup := by
  unfold createdTacticIds
  cases isRecurring with
  | false => simp
  | true =>
    simp only [if_true]
    refine List.Nodup.map_on ?_ (List.nodup_range' 1 12)
    intro a ha b hb hab
    apply weekTail_injOn a ha b hb
    have h2 := congrArg (fun i : String => i.data.reverse.take 2) hab
    have ha2 := recurringTactic_id_tail "" (clock a) a
    have hb2 := recurringTactic_id_tail "" (clock b) b
    simp only [recurringTactic] at ha2 hb2
    simp only at h2
    rw [ha2, hb2] at h2
    exact h2

theorem createTactic_goals_ids (s : AppState) (gi : Nat) (week : Option Nat)
    (isRecurring : Bool) (title : String) (clock : Nat → Nat) (goal : Goal)
    (hgoal : s.goals[gi]? = some goal) (htitle : title ≠ "") :
    ∃ added : List Tactic, added.map (fun t => t.id) = createdTacticIds isRecurring clock ∧
      (_createTactic s gi week isRecurring title clock).goals =
        s.goals.set gi { goal with tactics := goal.tactics ++ added } := by
  unfold _createTactic createdTacticIds
  simp only [htitle, if_false, hgoal]
  cases isRecurring with
  | false =>
    refine ⟨[{ id := "t" ++ toString (clock 0), title := title, completed := false,
               week := week }], ?_, ?_⟩
    · simp
    · rcases week with _ | _ | w <;> rfl
  | true =>
    refine ⟨(List.range' 1 12).map (fun w => recurringTactic title (clock w) w), ?_, ?_⟩
    · simp [recurringTactic]
    · rw [← foldl_push_eq_append_map]
      rcases week with _ | _ | w <;> rfl

theorem nodup_ids_insert (front back old added : List Tactic)
    (hold : ((front ++ old ++ back).map (fun t => t.id)).Nodup)
    (hadded : (added.map (fun t => t.id)).Nodup)
    (hfresh : ∀ i ∈ added.map (fun t => t.id),
      i ∉ (front ++ old ++ back).map (fun t => t.id)) :
    ((front ++ (old ++ added) ++ back).map (fun t => t.id)).Nodup := by
  have hperm : List.Perm (front ++ (old ++ added) ++ back) ((front ++ old ++ back) ++ added) := by
    have h1 : front ++ (old ++ added) ++ back = (front ++ old) ++ (added ++ back) := by simp
    have h2 : (front ++ old ++ back) ++ added = (front ++ old) ++ (back ++ added) := by simp
    rw [h1, h2]
    exact List.Perm.append_left _ List.perm_append_comm
  rw [(hperm.map _).nodup_iff, List.map_append, List.nodup_append]
  refine ⟨hold, hadded, ?_⟩
  intro i hi1 hi2
  exact hfresh i hi2 hi1

/-- C21, as stated, fails: two single tactics created while the clock reads the same
millisecond get the same id, and so do two goals added in the same millisecond, although
the ids were unique before. -/
theorem creation_in_same_millisecond_duplicates_id :
    idsUnique (_createTactic defaultState 0 (some 1) false "Read 10 pages"
        (fun _ => 1700000000000)) ∧
      ¬ idsUnique (_createTactic
        (_createTactic defaultState 0 (some 1) false "Read 10 pages" (fun _ => 1700000000000))
        0 (some 1) false "Write 5 chapters" (fun _ => 1700000000000)) ∧
      idsUnique (addGoal defaultState 1700000000000) ∧
      ¬ idsUnique (addGoal (addGoal defaultState 1700000000000) 1700000000000) := by
  decide

/-- C21, amended: from a state whose goal ids and tactic ids are unique, `addGoal` keeps
them unique when the id it builds from the clock is not the id of a goal already there,
`_createTactic` (single or recurring) keeps them unique when none of the ids it builds
from the clock is the id of a tactic already there, and the onboarding goal creation
always leaves unique ids. -/
theorem creation_keeps_ids_unique (s : AppState) (now gi : Nat) (week : Option Nat)
    (isRecurring : Bool) (title goalText : String) (clock : Nat → Nat)
    (hinv : idsUnique s) :
    (("g" ++ toString now) ∉ s.goals.map (fun g => g.id) → idsUnique (addGoal s now)) ∧
      ((∀ i ∈ createdTacticIds isRecurring clock,
          i ∉ (s.goals.flatMap (fun g => g.tactics)).map (fun t => t.id)) →
        idsUnique (_createTactic s gi week isRecurring title clock)) ∧
      idsUnique (finishOnboarding s goalText) := by
  obtain ⟨hgoals, htactics⟩ := hinv
  refine ⟨?_, ?_, ?_⟩
  · intro hfresh
    unfold addGoal
    constructor
    · simp only [List.map_append, List.map_cons, List.map_nil]
      rw [List.nodup_append]
      refine ⟨hgoals, List.nodup_singleton _, ?_⟩
      intro i hi1 hi2
      rw [List.mem_singleton] at hi2
      exact hfresh (hi2 ▸ hi1)
    · simpa using htactics
  · intro hfresh
    by_cases htitle : title = ""
    · have hsame : _createTactic s gi week isRecurring title clock = s := by
        simp [_createTactic, htitle]
      rw [hsame]
      exact ⟨hgoals, htactics⟩
    · cases hg : s.goals[gi]? with
      | none =>
        have hsame : _createTactic s gi week isRecurring title clock = s := by
          simp [_createTactic, htitle, hg]
        rw [hsame]
        exact ⟨hgoals, htactics⟩
      | some goal =>
        obtain ⟨added, hids, hnew⟩ :=
          createTactic_goals_ids s gi week isRecurring title clock goal hg htitle
        obtain ⟨pre, post, hsplit, hset⟩ :=
          set_split s.goals gi goal { goal with tactics := goal.tactics ++ added } hg
        rw [hset] at hnew
        unfold idsUnique
        rw [hnew]
        rw [hsplit] at hgoals htactics hfresh
        constructor
        · simpa using hgoals
        · simp only [List.flatMap_append, List.flatMap_cons] at htactics hfresh ⊢
          have hold : ((pre.flatMap (fun g => g.tactics) ++ goal.tactics ++
              post.flatMap (fun g => g.tactics)).map (fun t => t.id)).Nodup := by
            simpa using htactics
          have hres := nodup_ids_insert (pre.flatMap (fun g => g.tactics))
            (post.flatMap (fun g => g.tactics)) goal.tactics added hold
            (by rw [hids]; exact createdTacticIds_nodup isRecurring clock)
            (by
              intro i hi
              rw [hids] at hi
              simpa using hfresh i hi)
          simpa using hres
  · unfold finishOnboarding idsUnique
    by_cases hg : goalText = ""
    · simp [hg]
    · simp [hg]

theorem creation_keeps_ids_unique_witness :
    idsUnique defaultState ∧
      idsUnique (addGoal defaultState 1700000000000) ∧
      idsUnique (_createTactic defaultState 0 none true "Read 10 pages"
        (fun _ => 1700000000000)) ∧
      idsUnique (finishOnboarding defaultState "Write 5 chapters") :=
  ⟨by decide,
    (creation_keeps_ids_unique defaultState 1700000000000 0 none true "Read 10 pages"
      "Write 5 chapters" (fun _ => 1700000000000) (by decide)).1 (by decide),
    (creation_keeps_ids_unique defaultState 1700000000000 0 none true "Read 10 pages"
      "Write 5 chapters" (fun _ => 1700000000000) (by decide)).2.1 (by decide),
    (creation_keeps_ids_unique defaultState 1700000000000 0 none true "Read 10 pages"
      "Write 5 chapters" (fun _ => 1700000000000) (by decide)).2.2⟩

end SprintPulse
